import Mathlib

/-!
Verification development for the building-boundary repository.

The merge engine (`pickOrMergeSourceFeatures`) and the cascading discovery
controller from `src/src/App.jsx` are shallowly embedded below.  The turf
geometry library is an external collaborator of the repository; it is
modelled as a record of fallible operations (`Turf`), every call site of
which mirrors the source's `try`/`catch` discipline.  JS `Infinity`/`NaN`
sentinels that flow through the seed-area variable are modelled by `JNum`.
Coordinates and areas are exact rationals.
-/

namespace BuildingBoundary

/-- A geographic coordinate pair `[lng, lat]`. -/
abbrev Coord := ℚ × ℚ

/-- A linear ring: ordered list of coordinates. -/
abbrev Ring := List Coord

/-- Polygon coordinates: list of rings, first ring is the outer ring. -/
abbrev PolyCoords := List Ring

/-- GeoJSON-style geometry as used by the source. -/
inductive Geometry where
  | polygon (coordinates : PolyCoords)
  | multiPolygon (coordinates : List PolyCoords)
  | other
deriving Repr, DecidableEq

/-- A GeoJSON feature.  `properties` and `featureId` stand for all the
non-geometry fields that the JS spread `{ ...features[0], geometry }`
copies verbatim. -/
structure Feature where
  properties : Nat
  featureId : Option Nat
  geometry : Option Geometry
deriving Repr, DecidableEq

/-- JS number sentinel values reachable by the seed-area variable
(`Infinity` initialisation, `Infinity * m` products). -/
inductive JNum where
  | fin (q : ℚ)
  | inf
  | negInf
  | nan
deriving Repr, DecidableEq

/-- JS multiplication of a possibly-infinite number by a rational. -/
def jMul : JNum → ℚ → JNum
  | .fin q, m => .fin (q * m)
  | .inf, m => if 0 < m then .inf else if m < 0 then .negInf else .nan
  | .negInf, m => if 0 < m then .negInf else if m < 0 then .inf else .nan
  | .nan, _ => .nan

/-- JS comparison `0 < x` on a possibly-infinite number. -/
def jPos : JNum → Bool
  | .fin q => decide (0 < q)
  | .inf => true
  | .negInf => false
  | .nan => false

/-- JS comparison `j < q` (a finite rational `q` strictly above `j`). -/
def qGtJ (q : ℚ) : JNum → Bool
  | .fin m => decide (m < q)
  | .inf => false
  | .negInf => true
  | .nan => false

/-- The turf computational-geometry library, an external collaborator of
the repository.  Every operation is fallible (`none` models a thrown
exception); `union`, `cleanCoords` and `buffer` may also return a null
result (the inner `Option`).  `polyOk c` tells whether `turf.polygon c`
construction succeeds.  `diagOf` stands for the controller's
`turf.bbox` + `turf.distance` diagonal computation (unguarded in the
source, hence modelled total). -/
structure Turf where
  polyOk : PolyCoords → Bool
  pip : Coord → Geometry → Option Bool
  area : Geometry → Option ℚ
  centroid : Geometry → Option Coord
  dist : Coord → Coord → Option ℚ
  intersects : Geometry → Geometry → Option Bool
  union : Geometry → Geometry → Option (Option Geometry)
  cleanCoords : Geometry → Option (Option Geometry)
  buffer : Geometry → ℚ → Option (Option Geometry)
  diagOf : Geometry → ℚ

/-- Default guard constants of the source (`AREA_MULTIPLIER = 3.0`). -/
def AREA_MULTIPLIER : ℚ := 3

/-- `MAX_NEIGHBOR_DISTANCE_KM = 0.05` (50 m). -/
def MAX_NEIGHBOR_DISTANCE_KM : ℚ := mkRat 1 20

/-- `MAX_PASSES = 6` of the controller's expansion loop. -/
def MAX_PASSES : Nat := 6

/-- `BBOX_GROWTH = 0.10` convergence threshold. -/
def BBOX_GROWTH : ℚ := mkRat 1 10

/-- `POINT_BUFFER_M = 10` metre validation buffer. -/
def POINT_BUFFER_M : ℚ := 10

/-- One step of the JS ray-casting loop body of `pointInRing`. -/
def pointInRingStep (x y : ℚ) (pi pj : Coord) (inside : Bool) : Bool :=
  let xi := pi.1
  let yi := pi.2
  let xj := pj.1
  let yj := pj.2
  if (decide (y < yi) != decide (y < yj)) &&
     decide (x < ((xj - xi) * (y - yi)) / (yj - yi) + xi) then !inside else inside

/-- Ray-casting point-in-ring test (`pointInRing` in the source): iterates
`i` from `0` to `n-1` with `j` the previous index (starting at `n-1`). -/
def pointInRing (point : Coord) (ring : Ring) : Bool :=
  let n := ring.length
  (List.range n).foldl
    (fun inside i =>
      let j := if i = 0 then n - 1 else i - 1
      pointInRingStep point.1 point.2 (ring.getD i (0, 0)) (ring.getD j (0, 0)) inside)
    false

/-- A flattened fragment: its raw coordinates together with the turf
polygon built from them (`none` when `turf.polygon` threw). -/
abbrev Frag := PolyCoords × Option Geometry

/-- Default fragment used by positional lookups. -/
def dfltFrag : Frag := ([], none)

/-- Flattening of one feature (`extractPolygonCoords` loop body):
a `Polygon` with a nonempty first ring yields one fragment, a
`MultiPolygon` yields one fragment per part with a nonempty first ring;
anything else is skipped. -/
def extractOne (o : Turf) (f : Feature) : List Frag :=
  match f.geometry with
  | none => []
  | some g =>
    match g with
    | .polygon rings =>
      match rings.head? with
      | some r => if r.isEmpty then [] else [(rings, if o.polyOk rings then some (.polygon rings) else none)]
      | none => []
    | .multiPolygon parts =>
      parts.filterMap (fun pc =>
        match pc.head? with
        | some r => if r.isEmpty then none else some (pc, if o.polyOk pc then some (.polygon pc) else none)
        | none => none)
    | .other => []

/-- `extractPolygonCoords`: flatten every feature into fragments. -/
def extractPolygonCoords (o : Turf) (features : List Feature) : List Frag :=
  features.flatMap (extractOne o)

/-- Seed phase (a) candidate value: the area of the fragment when its
rigorous point-in-polygon test contains the reference point (`none` when
the turf polygon is missing, the test fails, or any call throws). -/
def candA (o : Turf) (pt : Coord) (fr : Frag) : Option ℚ :=
  match fr.2 with
  | some g =>
    match o.pip pt g with
    | some true => o.area g
    | _ => none
  | none => none

/-- Accumulator update of seed phase (a): keep the smaller area,
earlier index winning ties (JS `a < seedArea`). -/
def updateA : Option (Nat × ℚ) → Nat → Option ℚ → Option (Nat × ℚ)
  | best, _, none => best
  | none, i, some a => some (i, a)
  | some (j, b), i, some a => if a < b then some (i, a) else some (j, b)

/-- Scanner of seed phase (a) over enumerated fragments. -/
def seedScanA (o : Turf) (pt : Coord) : List (Nat × Frag) → Option (Nat × ℚ) → Option (Nat × ℚ)
  | [], best => best
  | (i, fr) :: rest, best => seedScanA o pt rest (updateA best i (candA o pt fr))

/-- Seed phase (a): smallest-area fragment rigorously containing the point
(source lines 133-149). -/
def seedPhaseA (o : Turf) (pt : Coord) (frags : List Frag) : Option (Nat × ℚ) :=
  seedScanA o pt frags.enum none

/-- Ray-casting hit test of seed phase (b) (`allCoords[i]?.[0] &&
pointInRing(point, allCoords[i][0])`). -/
def hitB (pt : Coord) (fr : Frag) : Bool :=
  match fr.1.head? with
  | some ring => pointInRing pt ring
  | none => false

/-- Seed phase (b): first fragment whose raw outer ring contains the point
by ray casting (source lines 152-161).  The `turf.area` call on a hit is
not guarded in the source, so its failure is a thrown exception. -/
def seedPhaseB (o : Turf) (pt : Coord) : Nat → List Frag → Except Unit (Option (Nat × JNum))
  | _, [] => .ok none
  | i, fr :: rest =>
    if hitB pt fr then
      match fr.2 with
      | some g =>
        match o.area g with
        | some a => .ok (some (i, .fin a))
        | none => .error ()
      | none => .ok (some (i, .fin 0))
    else seedPhaseB o pt (i + 1) rest

/-- Seed phase (c) candidate value: distance from the click point to the
fragment's centroid (`none` when either call throws or the polygon is
missing). -/
def candC (o : Turf) (pt : Coord) (fr : Frag) : Option ℚ :=
  match fr.2 with
  | some g =>
    match o.centroid g with
    | some c => o.dist pt c
    | none => none
  | none => none

/-- Phase (c) accumulator: chosen index with its recorded seed area, and
the minimum distance so far (`none` = `Infinity`). -/
structure SeedCAcc where
  best : Option (Nat × JNum)
  minDist : Option ℚ
deriving Repr, DecidableEq

/-- JS comparison `d < minDist` where `minDist` starts as `Infinity`
(modelled by `none`). -/
def jsLtOpt (d : ℚ) : Option ℚ → Bool
  | none => true
  | some m => decide (d < m)

/-- One step of phase (c): on `d < minDist` the source updates `minDist`
and `seedIndex` before calling `turf.area`; if that call throws, the
previous `seedArea` is kept (stale), modelled by reusing the recorded
area (initially `Infinity`). -/
def updateC (o : Turf) (pt : Coord) (acc : SeedCAcc) (i : Nat) (fr : Frag) : SeedCAcc :=
  match fr.2 with
  | some g =>
    match candC o pt fr with
    | some d =>
      if jsLtOpt d acc.minDist then
        match o.area g with
        | some a => ⟨some (i, .fin a), some d⟩
        | none => ⟨some (i, (acc.best.map Prod.snd).getD .inf), some d⟩
      else acc
    | none => acc
  | none => acc

/-- Scanner of seed phase (c) over enumerated fragments. -/
def seedScanC (o : Turf) (pt : Coord) : List (Nat × Frag) → SeedCAcc → SeedCAcc
  | [], acc => acc
  | (i, fr) :: rest, acc => seedScanC o pt rest (updateC o pt acc i fr)

/-- Seed phase (c): fragment whose centroid is closest to the click point
(source lines 164-180). -/
def seedPhaseC (o : Turf) (pt : Coord) (frags : List Frag) : Option (Nat × JNum) :=
  (seedScanC o pt frags.enum ⟨none, none⟩).best

/-- Seed selection (source lines 131-182): phases (a), (b), (c) in strict
precedence, first success winning; `none` models `seedIndex === -1`. -/
def seedSelect (o : Turf) (pt : Coord) (frags : List Frag) : Except Unit (Option (Nat × JNum)) :=
  match seedPhaseA o pt frags with
  | some (i, a) => .ok (some (i, .fin a))
  | none =>
    match seedPhaseB o pt 0 frags with
    | .error e => .error e
    | .ok (some r) => .ok (some r)
    | .ok none =>
      match seedPhaseC o pt frags with
      | some r => .ok (some r)
      | none => .ok none

/-- `turf.centroid(seedPoly)` of source line 186: unguarded, a throw
escapes the whole merge; with no seed polygon the click point is used. -/
def seedCentroidE (o : Turf) (pt : Coord) (seedPoly : Option Geometry) : Except Unit Coord :=
  match seedPoly with
  | some g =>
    match o.centroid g with
    | some c => .ok c
    | none => .error ()
  | none => .ok pt

/-- Source lines 187-189: recompute a falsy or non-positive seed area from
the seed polygon (`turf.area` unguarded there). -/
def seedAreaE (o : Turf) (seedPoly : Option Geometry) (sa : JNum) : Except Unit JNum :=
  match sa with
  | .fin q =>
    if q ≤ 0 then
      match seedPoly with
      | some g =>
        match o.area g with
        | some a => .ok (.fin a)
        | none => .error ()
      | none => .ok (.fin 0)
    else .ok (.fin q)
  | j => .ok j

/-- Precomputed per-fragment areas (source lines 193-197, `0` on throw or
missing polygon). -/
def fragAreas (o : Turf) (frags : List Frag) : List ℚ :=
  frags.map (fun fr =>
    match fr.2 with
    | some g => (o.area g).getD 0
    | none => 0)

/-- Precomputed per-fragment centroids (source lines 198-202, `null` on
throw or missing polygon). -/
def fragCentroids (o : Turf) (frags : List Frag) : List (Option Coord) :=
  frags.map (fun fr => fr.2.bind o.centroid)

/-- Everything the guarded-expansion loop reads. -/
structure MergeCtx where
  o : Turf
  frags : List Frag
  areas : List ℚ
  centroids : List (Option Coord)
  seedCentroid : Coord
  maxDistanceKm : ℚ
  maxClusterArea : JNum

/-- The cluster: member indices in insertion order plus the running total
area (`cluster` / `clusterArea` of the source). -/
structure ClusterState where
  cluster : List Nat
  clusterArea : ℚ
deriving Repr, DecidableEq

/-- The distance guard (source lines 218-223): `some true` = passed,
`some false` = candidate too far, `none` = `turf.distance` threw (the
surrounding `try` then skips the candidate).  The guard is skipped
(`some true`) when the candidate's centroid is missing
(`if (candidateCentroid)`). -/
def distGuard (ctx : MergeCtx) (i : Nat) : Option Bool :=
  match ctx.centroids.getD i none with
  | some c =>
    match ctx.o.dist ctx.seedCentroid c with
    | some d => some (decide (d ≤ ctx.maxDistanceKm))
    | none => none
  | none => some true

/-- The adjacency test: `[...cluster].some((j) => … booleanIntersects …)`,
a throw or missing member polygon counting as `false`. -/
def touchesCluster (ctx : MergeCtx) (cs : ClusterState) (poly : Geometry) : Bool :=
  cs.cluster.any (fun j =>
    match (ctx.frags.getD j dfltFrag).2 with
    | some otherPoly => (ctx.o.intersects poly otherPoly).getD false
    | none => false)

/-- One candidate evaluation of the expansion loop body (source lines
212-243): returns the candidate's area when all guards pass, `none` when
any guard fails or throws. -/
def admitDecision (ctx : MergeCtx) (cs : ClusterState) (i : Nat) : Option ℚ :=
  if i ∈ cs.cluster then none
  else
    match (ctx.frags.getD i dfltFrag).2 with
    | none => none
    | some poly =>
      match distGuard ctx i with
      | some true =>
        if jPos ctx.maxClusterArea && qGtJ (cs.clusterArea + ctx.areas.getD i 0) ctx.maxClusterArea then
          none
        else if touchesCluster ctx cs poly then some (ctx.areas.getD i 0) else none
      | _ => none

/-- One full scan over the candidate indices (the `for` loop of one
`while` iteration), threading the changed flag. -/
def passScan (ctx : MergeCtx) : List Nat → ClusterState → Bool → ClusterState × Bool
  | [], cs, changed => (cs, changed)
  | i :: rest, cs, changed =>
    match admitDecision ctx cs i with
    | some a => passScan ctx rest ⟨cs.cluster ++ [i], cs.clusterArea + a⟩ true
    | none => passScan ctx rest cs changed

/-- One full pass of the expansion `while` loop. -/
def expandPass (ctx : MergeCtx) (cs : ClusterState) : ClusterState × Bool :=
  passScan ctx (List.range ctx.frags.length) cs false

/-- The expansion `while (changed)` loop, fuelled; `ctx.frags.length` fuel
is proved sufficient to reach the fixed point the source loop runs to. -/
def expandLoop (ctx : MergeCtx) : Nat → ClusterState → ClusterState
  | 0, cs => cs
  | fuel + 1, cs =>
    match expandPass ctx cs with
    | (cs', true) => expandLoop ctx fuel cs'
    | (cs', false) => cs'

/-- The left fold of `turf.union` over the remaining cluster coordinates
(source lines 260-268): a `turf.polygon` or `turf.union` throw skips the
fragment, a null union result aborts with `null`. -/
def unionFold (o : Turf) (acc : Geometry) : List PolyCoords → Option Geometry
  | [] => some acc
  | c :: rest =>
    if o.polyOk c then
      match o.union acc (.polygon c) with
      | none => unionFold o acc rest
      | some none => none
      | some (some g) => unionFold o g rest
    else unionFold o acc rest

/-- Union of the cluster (source lines 257-271).  If the initial
`turf.polygon(clusterCoords[0])` throws, the outer `catch` leaves
`unionResult = null`. -/
def unionCluster (o : Turf) : List PolyCoords → Option Geometry
  | [] => none
  | c0 :: rest => if o.polyOk c0 then unionFold o (.polygon c0) rest else none

/-- Sub-polygon choice for a multi-part union result (source lines
281-298): first part containing the click point, otherwise the
largest-area part, index 0 by default; throws skip the part. -/
def pickBestPart (o : Turf) (pt : Coord) : List (Nat × PolyCoords) → Nat → ℚ → Nat
  | [], bestIdx, _ => bestIdx
  | (i, c) :: rest, bestIdx, bestArea =>
    if o.polyOk c then
      match o.pip pt (.polygon c) with
      | none => pickBestPart o pt rest bestIdx bestArea
      | some true => i
      | some false =>
        match o.area (.polygon c) with
        | none => pickBestPart o pt rest bestIdx bestArea
        | some a =>
          if bestArea < a then pickBestPart o pt rest i a
          else pickBestPart o pt rest bestIdx bestArea
    else pickBestPart o pt rest bestIdx bestArea

/-- Force-single-Polygon step (source lines 275-312), including the
fallback when the union failed entirely: with one set of cluster
coordinates a `Polygon`, otherwise a `MultiPolygon`. -/
def canonicalize (o : Turf) (pt : Coord) (unionResult : Option Geometry)
    (clusterCoords : List PolyCoords) : Geometry :=
  match unionResult with
  | some geom =>
    match geom with
    | .multiPolygon parts =>
      if 1 < parts.length then .polygon (parts.getD (pickBestPart o pt parts.enum 0 0) [])
      else if parts.length = 1 then .polygon (parts.getD 0 [])
      else geom
    | g => g
  | none =>
    if clusterCoords.length = 1 then .polygon (clusterCoords.getD 0 [])
    else .multiPolygon clusterCoords

/-- Final `turf.cleanCoords` pass (source lines 315-318): kept as-is on a
throw or a null cleaned geometry. -/
def cleanupGeom (o : Turf) (g : Geometry) : Geometry :=
  match o.cleanCoords g with
  | some (some g') => g'
  | _ => g

/-- Everything after seed identification (source lines 184-321), always
producing a geometry to attach to `features[0]`. -/
def mergeGeometry (o : Turf) (pt : Coord) (areaMultiplier maxDistanceKm : ℚ)
    (frags : List Frag) (seedIndex : Nat) (seedCentroid : Coord) (seedArea : JNum) : Geometry :=
  let maxClusterArea := jMul seedArea areaMultiplier
  let areas := fragAreas o frags
  let ctx : MergeCtx := ⟨o, frags, areas, fragCentroids o frags, seedCentroid, maxDistanceKm, maxClusterArea⟩
  let final := expandLoop ctx frags.length ⟨[seedIndex], areas.getD seedIndex 0⟩
  let clusterCoords := final.cluster.map (fun i => (frags.getD i dfltFrag).1)
  if clusterCoords.length = 0 then .polygon (frags.getD seedIndex dfltFrag).1
  else if clusterCoords.length = 1 then .polygon (clusterCoords.getD 0 [])
  else cleanupGeom o (canonicalize o pt (unionCluster o clusterCoords) clusterCoords)

/-- Source lines 184-321 with the two unguarded turf calls of the seed
setup threaded as exceptions. -/
def mergeAfterSeed (o : Turf) (f0 : Feature) (pt : Coord) (areaMultiplier maxDistanceKm : ℚ)
    (frags : List Frag) (seedIndex : Nat) (sa0 : JNum) : Except Unit (Option Feature) :=
  let seedPoly := (frags.getD seedIndex dfltFrag).2
  match seedCentroidE o pt seedPoly with
  | .error e => .error e
  | .ok seedCentroid =>
    match seedAreaE o seedPoly sa0 with
    | .error e => .error e
    | .ok seedArea =>
      let g := mergeGeometry o pt areaMultiplier maxDistanceKm frags seedIndex seedCentroid seedArea
      .ok (some { f0 with geometry := some g })

/-- JS `options.x || default` resolution (falsy `0` falls back). -/
def resolveOpt (v : Option ℚ) (d : ℚ) : ℚ :=
  match v with
  | some q => if q = 0 then d else q
  | none => d

/-- The optional guard overrides of `pickOrMergeSourceFeatures`. -/
structure MergeOptions where
  areaMultiplier : Option ℚ
  maxDistanceKm : Option ℚ
deriving Repr, DecidableEq

/-- Empty options object (the call sites using defaults). -/
def noOptions : MergeOptions := ⟨none, none⟩

/-- `pickOrMergeSourceFeatures(features, lngLat, options)` (source lines
112-321).  `.ok none` is the `null` return on empty input; `.error ()`
models an exception escaping through one of the unguarded turf calls of
the seed setup. -/
def pickOrMergeSourceFeatures (o : Turf) (features : List Feature) (lngLat : Coord)
    (options : MergeOptions) : Except Unit (Option Feature) :=
  match features with
  | [] => .ok none
  | f0 :: rest =>
    let frags := extractPolygonCoords o (f0 :: rest)
    if frags.length = 0 then .ok (some f0)
    else if frags.length = 1 then
      .ok (some { f0 with geometry := some (.polygon (frags.getD 0 dfltFrag).1) })
    else
      match seedSelect o lngLat frags with
      | .error e => .error e
      | .ok none => .ok (some f0)
      | .ok (some (seedIndex, sa0)) =>
        mergeAfterSeed o f0 lngLat (resolveOpt options.areaMultiplier AREA_MULTIPLIER)
          (resolveOpt options.maxDistanceKm MAX_NEIGHBOR_DISTANCE_KM) frags seedIndex sa0

/-- `isPointInsideResult` of the discovery controller (source lines
537-548): direct containment, then containment in the 10 m buffer; any
throw or null buffer yields `false`. -/
def isPointInsideResult (o : Turf) (clickPt : Coord) (geometry : Option Geometry) : Bool :=
  match geometry with
  | none => false
  | some g =>
    match o.pip clickPt g with
    | none => false
    | some true => true
    | some false =>
      match o.buffer g POINT_BUFFER_M with
      | none => false
      | some none => false
      | some (some buffered) =>
        match o.pip clickPt buffered with
        | none => false
        | some b => b

/-- State of the controller's per-zoom expansion loop (`runPass`). -/
structure PassState where
  passNumber : Nat
  prevDiagonal : ℚ
  currentGeom : Option Geometry
  currentMerged : Option Feature
deriving Repr, DecidableEq

/-- How a `runPass` invocation hands its result to `onResult`: at the
no-geometry/pass-limit exit or at the convergence exit. -/
inductive PassExit where
  | finished (result : Option (Feature × Option Geometry))
  | converged (result : Option (Feature × Option Geometry))
deriving Repr, DecidableEq

/-- The result `runPass` reports: `{ feature: currentMerged, geometry:
currentGeom }` when a merge ever succeeded, else `null`. -/
def passResult (st : PassState) : Option (Feature × Option Geometry) :=
  st.currentMerged.map (fun f => (f, st.currentGeom))

/-- The growth-ratio expression of `runPass` (source line 637):
`prevDiagonal > 0 ? (diagonal - prevDiagonal) / prevDiagonal : 1`. -/
def growthRatio (diagonal prev : ℚ) : ℚ :=
  if 0 < prev then (diagonal - prev) / prev else 1

/-- One `runPass` invocation up to its control decision (source lines
623-644): increment the pass counter, exit on missing geometry or pass
limit, exit converged when after at least one prior pass the bbox-diagonal
growth ratio is below `BBOX_GROWTH`, else record the diagonal and
continue. -/
def passStep (diagOf : Geometry → ℚ) (st : PassState) : PassExit ⊕ PassState :=
  match st.currentGeom with
  | none => .inl (.finished (passResult st))
  | some g =>
    if MAX_PASSES < st.passNumber + 1 then .inl (.finished (passResult st))
    else
      if 1 < st.passNumber + 1 ∧ growthRatio (diagOf g) st.prevDiagonal < BBOX_GROWTH then
        .inl (.converged (passResult st))
      else .inr { st with passNumber := st.passNumber + 1, prevDiagonal := diagOf g }

/-- The requery-and-merge performed between passes (source lines
654-671): when the merge produced a feature with a geometry, overwrite
`currentMerged`/`currentGeom`, else keep the state. -/
def applyEnv (env : Nat → Option (Feature × Geometry)) (st : PassState) : PassState :=
  match env st.passNumber with
  | some (f, g) => { st with currentMerged := some f, currentGeom := some g }
  | none => st

/-- The recursive `runPass` loop.  `env p` is the outcome of the requery
and merge performed after pass `p` (`some` only when the merge produced a
feature with a geometry).  Fuel-indexed; `none` means fuel ran out before
the loop exited. -/
def runPassLoop (diagOf : Geometry → ℚ) (env : Nat → Option (Feature × Geometry)) :
    Nat → PassState → Option PassExit
  | 0, _ => none
  | fuel + 1, st =>
    match passStep diagOf st with
    | .inl e => some e
    | .inr st' => runPassLoop diagOf env fuel (applyEnv env st')

/-- Initial `runPass` state (source lines 606-609 after the initial
query): pass number 0, previous diagonal 0. -/
def initPassState (currentGeom : Option Geometry) (currentMerged : Option Feature) : PassState :=
  ⟨0, 0, currentGeom, currentMerged⟩

/-- Outcome of the zoom cascade (`tryNextZoom`): immediate validated
success, the best-so-far fallback after exhaustion, or the hard
`NoBuildingFound` error. -/
inductive DiscoveryOutcome where
  | found (feature : Feature) (geometry : Option Geometry)
  | bestEffort (feature : Feature) (geometry : Option Geometry)
  | noBuilding
deriving Repr, DecidableEq

/-- The `tryNextZoom` recursion (source lines 683-721) over the remaining
zoom indices.  `env i` is what `discoverAtZoom` hands to the callback for
cascade index `i`; a result with a null geometry counts as no result. -/
def tryNextZoomLoop (o : Turf) (clickPt : Coord) (env : Nat → Option (Feature × Option Geometry)) :
    List Nat → Option (Feature × Option Geometry) → DiscoveryOutcome
  | [], best =>
    match best with
    | some (f, g) => .bestEffort f g
    | none => .noBuilding
  | i :: rest, best =>
    match env i with
    | none => tryNextZoomLoop o clickPt env rest best
    | some (f, g) =>
      match g with
      | none => tryNextZoomLoop o clickPt env rest best
      | some geom =>
        if isPointInsideResult o clickPt (some geom) then .found f (some geom)
        else tryNextZoomLoop o clickPt env rest (some (f, some geom))

/-- A full discovery run over the four-level zoom cascade
(`ZOOM_CASCADE = [13.5, 15.5, 17.5, 19.5]`). -/
def discoverRun (o : Turf) (clickPt : Coord) (env : Nat → Option (Feature × Option Geometry)) :
    DiscoveryOutcome :=
  tryNextZoomLoop o clickPt env [0, 1, 2, 3] none

/-! ### Concrete instances used by counterexamples and witnesses -/

/-- Unit square `[0,1]²` as polygon coordinates. -/
def sqA : PolyCoords := [[(0, 0), (1, 0), (1, 1), (0, 1), (0, 0)]]

/-- Unit square `[1,2]×[0,1]`, sharing an edge with `sqA`. -/
def sqB : PolyCoords := [[(1, 0), (2, 0), (2, 1), (1, 1), (1, 0)]]

/-- Unit square `[2,3]×[0,1]`, sharing an edge with `sqB` only. -/
def sqC : PolyCoords := [[(2, 0), (3, 0), (3, 1), (2, 1), (2, 0)]]

/-- The `2×1` rectangle covering `sqA ∪ sqB`. -/
def sqAB : PolyCoords := [[(0, 0), (2, 0), (2, 1), (0, 1), (0, 0)]]

/-- Reference point inside `sqA`. -/
def ptA : Coord := (mkRat 1 2, mkRat 1 2)

/-- Oracle for the C1 failing input: all constructions succeed, the click
point is rigorously inside `sqA` only, all areas are 1, all fragments
touch, and `turf.union` returns `null` (union fails entirely);
`turf.cleanCoords` returns `null` as well. -/
def oracle1 : Turf where
  polyOk := fun _ => true
  pip := fun _ g => some (decide (g = .polygon sqA))
  area := fun _ => some 1
  centroid := fun _ => some (0, 0)
  dist := fun _ _ => some 0
  intersects := fun _ _ => some true
  union := fun _ _ => some none
  cleanCoords := fun _ => some none
  buffer := fun _ _ => none
  diagOf := fun _ => 0

/-- The C1 failing input: two features, each one square fragment. -/
def feats1 : List Feature :=
  [⟨0, none, some (.polygon sqA)⟩, ⟨1, some 7, some (.polygon sqB)⟩]

/-- Oracle for the C2 counterexample: the centroid computation of the
`sqB` fragment throws, every other operation is benign, and the union of
the admitted pair succeeds as the covering rectangle. -/
def oracle2 : Turf where
  polyOk := fun _ => true
  pip := fun _ g => some (decide (g = .polygon sqA))
  area := fun _ => some 1
  centroid := fun g => if g = .polygon sqB then none else some (0, 0)
  dist := fun _ _ => some 0
  intersects := fun _ _ => some true
  union := fun _ _ => some (some (.polygon sqAB))
  cleanCoords := fun _ => none
  buffer := fun _ _ => none
  diagOf := fun _ => 0

/-- Fragments flattened from `feats1` under `oracle1`. -/
def frags1 : List Frag := extractPolygonCoords oracle1 feats1

/-- The C2 counterexample input features. -/
def feats2 : List Feature :=
  [⟨0, none, some (.polygon sqA)⟩, ⟨1, none, some (.polygon sqB)⟩]

/-- Fragments flattened from `feats2` under `oracle2`. -/
def frags2 : List Frag := extractPolygonCoords oracle2 feats2

/-- The exact expansion context `mergeGeometry` builds for the C2
counterexample run (seed 0, default guards, seed area 1). -/
def ctx2 : MergeCtx :=
  ⟨oracle2, frags2, fragAreas oracle2 frags2, fragCentroids oracle2 frags2, (0, 0),
    MAX_NEIGHBOR_DISTANCE_KM, jMul (.fin 1) AREA_MULTIPLIER⟩

/-- Oracle for the C3 counterexample: the rigorous containment test puts
the click point on the degenerate seed `sqA` whose area is 0, the
candidate `sqB` has area 5, everything touches. -/
def oracle3 : Turf where
  polyOk := fun _ => true
  pip := fun _ g => some (decide (g = .polygon sqA))
  area := fun g => if g = .polygon sqA then some 0 else some 5
  centroid := fun _ => some (0, 0)
  dist := fun _ _ => some 0
  intersects := fun _ _ => some true
  union := fun _ _ => some (some (.polygon sqAB))
  cleanCoords := fun _ => none
  buffer := fun _ _ => none
  diagOf := fun _ => 0

/-- The C3 counterexample input features. -/
def feats3 : List Feature :=
  [⟨0, none, some (.polygon sqA)⟩, ⟨1, none, some (.polygon sqB)⟩]

/-- Fragments flattened from `feats3` under `oracle3`. -/
def frags3 : List Frag := extractPolygonCoords oracle3 feats3

/-- The exact expansion context `mergeGeometry` builds for the C3
counterexample run: the recomputed seed area is 0, so the area cap
`seedArea × areaMultiplier` is 0 and the guard is disabled. -/
def ctx3 : MergeCtx :=
  ⟨oracle3, frags3, fragAreas oracle3 frags3, fragCentroids oracle3 frags3, (0, 0),
    MAX_NEIGHBOR_DISTANCE_KM, jMul (.fin 0) AREA_MULTIPLIER⟩

/-- Adjacent pairs for the C8 multi-hop scenario: `sqA`–`sqB` and
`sqB`–`sqC` touch, `sqA`–`sqC` do not. -/
def adjPairs : List (PolyCoords × PolyCoords) := [(sqA, sqB), (sqB, sqA), (sqB, sqC), (sqC, sqB)]

/-- Oracle for the C8 multi-hop scenario. -/
def oracle8 : Turf where
  polyOk := fun _ => true
  pip := fun _ g => some (decide (g = .polygon sqA))
  area := fun _ => some 1
  centroid := fun _ => some (0, 0)
  dist := fun _ _ => some 0
  intersects := fun g h =>
    match g, h with
    | .polygon a, .polygon b => some (decide ((a, b) ∈ adjPairs))
    | _, _ => some false
  union := fun _ _ => some (some (.polygon sqAB))
  cleanCoords := fun _ => none
  buffer := fun _ _ => none
  diagOf := fun _ => 0

/-- One feature whose MultiPolygon flattens into `sqA`, `sqC`, `sqB` in
scan order: `sqC` is scanned before the intermediate fragment `sqB`. -/
def feats8 : List Feature := [⟨0, none, some (.multiPolygon [sqA, sqC, sqB])⟩]

/-- Fragments flattened from `feats8` under `oracle8`. -/
def frags8 : List Frag := extractPolygonCoords oracle8 feats8

/-- The exact expansion context `mergeGeometry` builds for the C8 run. -/
def ctx8 : MergeCtx :=
  ⟨oracle8, frags8, fragAreas oracle8 frags8, fragCentroids oracle8 frags8, (0, 0),
    MAX_NEIGHBOR_DISTANCE_KM, jMul (.fin 1) AREA_MULTIPLIER⟩

/-- An input whose only feature has no geometry: flattening yields zero
fragments. -/
def featsNone : List Feature := [⟨3, none, none⟩]

/-- An input flattening to exactly one fragment. -/
def featsOne : List Feature := [⟨2, some 5, some (.polygon sqA)⟩]

/-- Oracle whose `sqB` centroid is computed but 1 km away from the seed
centroid, beyond the 50 m default distance guard. -/
def oracleW2 : Turf where
  polyOk := fun _ => true
  pip := fun _ g => some (decide (g = .polygon sqA))
  area := fun _ => some 1
  centroid := fun g => if g = .polygon sqB then some (10, 10) else some (0, 0)
  dist := fun _ c => if c = (10, 10) then some 1 else some 0
  intersects := fun _ _ => some true
  union := fun _ _ => some (some (.polygon sqAB))
  cleanCoords := fun _ => none
  buffer := fun _ _ => none
  diagOf := fun _ => 0

/-- Fragments flattened from `feats2` under `oracleW2`. -/
def fragsW2 : List Frag := extractPolygonCoords oracleW2 feats2

/-- The expansion context for the distance-guard witness run. -/
def ctxW2 : MergeCtx :=
  ⟨oracleW2, fragsW2, fragAreas oracleW2 fragsW2, fragCentroids oracleW2 fragsW2, (0, 0),
    MAX_NEIGHBOR_DISTANCE_KM, jMul (.fin 1) AREA_MULTIPLIER⟩

/-- Cascade environment with a single validated candidate at zoom index 0. -/
def envW : Nat → Option (Feature × Option Geometry) :=
  fun i => if i = 0 then some (⟨5, none, none⟩, some (.polygon sqA)) else none

/-! ## Expansion-loop lemmas -/

theorem admitDecision_of_mem (ctx : MergeCtx) (cs : ClusterState) (i : Nat)
    (h : i ∈ cs.cluster) : admitDecision ctx cs i = none := by
  simp [admitDecision, h]

theorem admitDecision_not_mem (ctx : MergeCtx) (cs : ClusterState) (i : Nat) (a : ℚ)
    (h : admitDecision ctx cs i = some a) : i ∉ cs.cluster := by
  intro hm
  rw [admitDecision_of_mem ctx cs i hm] at h
  exact Option.noConfusion h

theorem distGuard_far (ctx : MergeCtx) (i : Nat) (c : Coord) (d : ℚ)
    (hc : ctx.centroids.getD i none = some c)
    (hd : ctx.o.dist ctx.seedCentroid c = some d)
    (hfar : ctx.maxDistanceKm < d) :
    distGuard ctx i = some false := by
  have hdle : decide (d ≤ ctx.maxDistanceKm) = false := decide_eq_false (not_le.mpr hfar)
  unfold distGuard
  simp only [hc, hd, hdle]

theorem admitDecision_far (ctx : MergeCtx) (cs : ClusterState) (i : Nat) (c : Coord) (d : ℚ)
    (hc : ctx.centroids.getD i none = some c)
    (hd : ctx.o.dist ctx.seedCentroid c = some d)
    (hfar : ctx.maxDistanceKm < d) :
    admitDecision ctx cs i = none := by
  unfold admitDecision
  rw [distGuard_far ctx i c d hc hd hfar]
  split
  · rfl
  · cases hfr : (ctx.frags.getD i dfltFrag).2 with
    | none => rfl
    | some poly => rfl

theorem admitDecision_area_le (ctx : MergeCtx) (cs : ClusterState) (i : Nat) (a : ℚ) (M : ℚ)
    (hM : ctx.maxClusterArea = .fin M) (hpos : 0 < M)
    (h : admitDecision ctx cs i = some a) :
    cs.clusterArea + a ≤ M := by
  have hjp : jPos ctx.maxClusterArea = true := by
    rw [hM]; simpa [jPos] using hpos
  unfold admitDecision at h
  split at h
  · exact Option.noConfusion h
  · split at h
    · exact Option.noConfusion h
    · split at h
      · split at h
        · exact Option.noConfusion h
        · rename_i hguard
          split at h
          · rw [Option.some_inj] at h
            subst h
            rw [hjp] at hguard
            simp only [Bool.true_and] at hguard
            rw [hM] at hguard
            simp only [qGtJ, decide_eq_true_eq] at hguard
            exact le_of_not_lt hguard
          · exact Option.noConfusion h
      · exact Option.noConfusion h

theorem admitDecision_touches (ctx : MergeCtx) (cs : ClusterState) (i : Nat) (a : ℚ)
    (h : admitDecision ctx cs i = some a) :
    ∃ gi, (ctx.frags.getD i dfltFrag).2 = some gi ∧
      ∃ j, j ∈ cs.cluster ∧ ∃ gj, (ctx.frags.getD j dfltFrag).2 = some gj ∧
        ctx.o.intersects gi gj = some true := by
  unfold admitDecision at h
  split at h
  · exact Option.noConfusion h
  · split at h
    · exact Option.noConfusion h
    · rename_i poly hfr
      split at h
      · split at h
        · exact Option.noConfusion h
        · split at h
          · rename_i htouch
            unfold touchesCluster at htouch
            rw [List.any_eq_true] at htouch
            obtain ⟨j, hj, hjt⟩ := htouch
            refine ⟨poly, hfr, j, hj, ?_⟩
            revert hjt
            cases hfrj : (ctx.frags.getD j dfltFrag).2 with
            | none => intro hjt; exact absurd hjt (by simp)
            | some gj =>
              intro hjt
              simp only at hjt
              refine ⟨gj, rfl, ?_⟩
              cases hint : ctx.o.intersects poly gj with
              | none => rw [hint] at hjt; exact absurd hjt (by simp [Option.getD])
              | some b =>
                rw [hint] at hjt
                simp only [Option.getD_some] at hjt
                rw [hjt]
          · exact Option.noConfusion h
      · exact Option.noConfusion h

theorem passScan_mem_mono (ctx : MergeCtx) (l : List Nat) (cs : ClusterState) (ch : Bool)
    (j : Nat) (h : j ∈ cs.cluster) : j ∈ (passScan ctx l cs ch).1.cluster := by
  induction l generalizing cs ch with
  | nil => simpa [passScan] using h
  | cons i rest ih =>
    unfold passScan
    cases hadm : admitDecision ctx cs i with
    | some a => exact ih _ _ (List.mem_append_left _ h)
    | none => exact ih _ _ h

theorem passScan_mem_of (ctx : MergeCtx) (l : List Nat) (cs : ClusterState) (ch : Bool)
    (j : Nat) (h : j ∈ (passScan ctx l cs ch).1.cluster) : j ∈ cs.cluster ∨ j ∈ l := by
  induction l generalizing cs ch with
  | nil => exact Or.inl (by simpa [passScan] using h)
  | cons i rest ih =>
    unfold passScan at h
    cases hadm : admitDecision ctx cs i with
    | some a =>
      rw [hadm] at h
      rcases ih _ _ h with hm | hm
      · rcases List.mem_append.mp hm with hm' | hm'
        · exact Or.inl hm'
        · exact Or.inr (by simpa using Or.inl (List.mem_singleton.mp hm'))
      · exact Or.inr (List.mem_cons_of_mem _ hm)
    | none =>
      rw [hadm] at h
      rcases ih _ _ h with hm | hm
      · exact Or.inl hm
      · exact Or.inr (List.mem_cons_of_mem _ hm)

theorem passScan_changed_false (ctx : MergeCtx) (l : List Nat) (cs : ClusterState) (ch : Bool)
    (h : (passScan ctx l cs ch).2 = false) : (passScan ctx l cs ch).1 = cs ∧ ch = false := by
  induction l generalizing cs ch with
  | nil => exact ⟨rfl, by simpa [passScan] using h⟩
  | cons i rest ih =>
    unfold passScan at h ⊢
    cases hadm : admitDecision ctx cs i with
    | some a =>
      rw [hadm] at h
      exact absurd (ih _ _ h).2 (by simp)
    | none =>
      rw [hadm] at h
      exact ih _ _ h

theorem passScan_length_mono (ctx : MergeCtx) (l : List Nat) (cs : ClusterState) (ch : Bool) :
    cs.cluster.length ≤ (passScan ctx l cs ch).1.cluster.length := by
  induction l generalizing cs ch with
  | nil => simp [passScan]
  | cons i rest ih =>
    unfold passScan
    cases hadm : admitDecision ctx cs i with
    | some a =>
      refine le_trans ?_ (ih ⟨cs.cluster ++ [i], cs.clusterArea + a⟩ true)
      simp
    | none => exact ih _ _

theorem passScan_changed_growth (ctx : MergeCtx) (l : List Nat) (cs : ClusterState)
    (h : (passScan ctx l cs false).2 = true) :
    cs.cluster.length < (passScan ctx l cs false).1.cluster.length := by
  induction l generalizing cs with
  | nil => exact absurd h (by simp [passScan])
  | cons i rest ih =>
    unfold passScan at h ⊢
    cases hadm : admitDecision ctx cs i with
    | some a =>
      refine lt_of_lt_of_le ?_ (passScan_length_mono ctx rest ⟨cs.cluster ++ [i], cs.clusterArea + a⟩ true)
      simp
    | none =>
      rw [hadm] at h
      exact ih _ h

theorem passScan_nodup (ctx : MergeCtx) (l : List Nat) (cs : ClusterState) (ch : Bool)
    (h : cs.cluster.Nodup) : (passScan ctx l cs ch).1.cluster.Nodup := by
  induction l generalizing cs ch with
  | nil => simpa [passScan] using h
  | cons i rest ih =>
    unfold passScan
    cases hadm : admitDecision ctx cs i with
    | some a =>
      refine ih _ _ ?_
      have hni := admitDecision_not_mem ctx cs i a hadm
      exact ((List.perm_append_singleton i cs.cluster).nodup_iff).mpr (List.nodup_cons.mpr ⟨hni, h⟩)
    | none => exact ih _ _ h

theorem passScan_avoid (ctx : MergeCtx) (l : List Nat) (cs : ClusterState) (ch : Bool) (i : Nat)
    (hnone : ∀ cs', admitDecision ctx cs' i = none)
    (h : i ∉ cs.cluster) : i ∉ (passScan ctx l cs ch).1.cluster := by
  induction l generalizing cs ch with
  | nil => simpa [passScan] using h
  | cons k rest ih =>
    unfold passScan
    cases hadm : admitDecision ctx cs k with
    | some a =>
      refine ih _ _ ?_
      intro hmem
      rcases List.mem_append.mp hmem with hm | hm
      · exact h hm
      · have hik : i = k := List.mem_singleton.mp hm
        rw [hik] at hnone
        rw [hnone cs] at hadm
        exact Option.noConfusion hadm
    | none => exact ih _ _ h

theorem passScan_area_le (ctx : MergeCtx) (l : List Nat) (cs : ClusterState) (ch : Bool) (M : ℚ)
    (hM : ctx.maxClusterArea = .fin M) (hpos : 0 < M) (h : cs.clusterArea ≤ M) :
    (passScan ctx l cs ch).1.clusterArea ≤ M := by
  induction l generalizing cs ch with
  | nil => simpa [passScan] using h
  | cons i rest ih =>
    unfold passScan
    cases hadm : admitDecision ctx cs i with
    | some a => exact ih _ _ (admitDecision_area_le ctx cs i a M hM hpos hadm)
    | none => exact ih _ _ h

theorem passScan_touch (ctx : MergeCtx) (l : List Nat) (cs : ClusterState) (ch : Bool) (i : Nat)
    (h : i ∈ (passScan ctx l cs ch).1.cluster) (hni : i ∉ cs.cluster) :
    ∃ gi, (ctx.frags.getD i dfltFrag).2 = some gi ∧
      ∃ j, j ∈ (passScan ctx l cs ch).1.cluster ∧ j ≠ i ∧
        ∃ gj, (ctx.frags.getD j dfltFrag).2 = some gj ∧ ctx.o.intersects gi gj = some true := by
  induction l generalizing cs ch with
  | nil => exact absurd (by simpa [passScan] using h) hni
  | cons k rest ih =>
    unfold passScan at h ⊢
    cases hadm : admitDecision ctx cs k with
    | some a =>
      rw [hadm] at h
      by_cases hik : i = k
      · subst hik
        obtain ⟨gi, hgi, j, hj, gj, hgj, hint⟩ := admitDecision_touches ctx cs i a hadm
        refine ⟨gi, hgi, j, ?_, ?_, gj, hgj, hint⟩
        · exact passScan_mem_mono ctx rest _ true j (List.mem_append_left _ hj)
        · intro he
          rw [he] at hj
          exact hni hj
      · refine ih _ _ h ?_
        intro hmem
        rcases List.mem_append.mp hmem with hm | hm
        · exact hni hm
        · exact hik (List.mem_singleton.mp hm)
    | none =>
      rw [hadm] at h
      exact ih _ _ h hni

theorem expandLoop_mem_mono (ctx : MergeCtx) (fuel : Nat) (cs : ClusterState) (j : Nat)
    (h : j ∈ cs.cluster) : j ∈ (expandLoop ctx fuel cs).cluster := by
  induction fuel generalizing cs with
  | zero => simpa [expandLoop] using h
  | succ fuel ih =>
    unfold expandLoop
    cases hp : expandPass ctx cs with
    | mk cs' changed =>
      have hmem : j ∈ cs'.cluster := by
        have := passScan_mem_mono ctx (List.range ctx.frags.length) cs false j h
        rw [show passScan ctx (List.range ctx.frags.length) cs false = (cs', changed) from hp] at this
        exact this
      cases changed with
      | true => exact ih _ hmem
      | false => exact hmem

theorem expandLoop_avoid (ctx : MergeCtx) (fuel : Nat) (cs : ClusterState) (i : Nat)
    (hnone : ∀ cs', admitDecision ctx cs' i = none)
    (h : i ∉ cs.cluster) : i ∉ (expandLoop ctx fuel cs).cluster := by
  induction fuel generalizing cs with
  | zero => simpa [expandLoop] using h
  | succ fuel ih =>
    unfold expandLoop
    cases hp : expandPass ctx cs with
    | mk cs' changed =>
      have hmem : i ∉ cs'.cluster := by
        have := passScan_avoid ctx (List.range ctx.frags.length) cs false i hnone h
        rw [show passScan ctx (List.range ctx.frags.length) cs false = (cs', changed) from hp] at this
        exact this
      cases changed with
      | true => exact ih _ hmem
      | false => exact hmem

theorem expandLoop_area_le (ctx : MergeCtx) (fuel : Nat) (cs : ClusterState) (M : ℚ)
    (hM : ctx.maxClusterArea = .fin M) (hpos : 0 < M) (h : cs.clusterArea ≤ M) :
    (expandLoop ctx fuel cs).clusterArea ≤ M := by
  induction fuel generalizing cs with
  | zero => simpa [expandLoop] using h
  | succ fuel ih =>
    unfold expandLoop
    cases hp : expandPass ctx cs with
    | mk cs' changed =>
      have hle : cs'.clusterArea ≤ M := by
        have := passScan_area_le ctx (List.range ctx.frags.length) cs false M hM hpos h
        rw [show passScan ctx (List.range ctx.frags.length) cs false = (cs', changed) from hp] at this
        exact this
      cases changed with
      | true => exact ih _ hle
      | false => exact hle

theorem expandLoop_touch (ctx : MergeCtx) (fuel : Nat) (cs : ClusterState) (i : Nat)
    (h : i ∈ (expandLoop ctx fuel cs).cluster) (hni : i ∉ cs.cluster) :
    ∃ gi, (ctx.frags.getD i dfltFrag).2 = some gi ∧
      ∃ j, j ∈ (expandLoop ctx fuel cs).cluster ∧ j ≠ i ∧
        ∃ gj, (ctx.frags.getD j dfltFrag).2 = some gj ∧ ctx.o.intersects gi gj = some true := by
  induction fuel generalizing cs with
  | zero => exact absurd (by simpa [expandLoop] using h) hni
  | succ fuel ih =>
    unfold expandLoop at h ⊢
    cases hp : expandPass ctx cs with
    | mk cs' changed =>
      rw [hp] at h
      by_cases hmem : i ∈ cs'.cluster
      · have htw : ∃ gi, (ctx.frags.getD i dfltFrag).2 = some gi ∧
            ∃ j, j ∈ cs'.cluster ∧ j ≠ i ∧
              ∃ gj, (ctx.frags.getD j dfltFrag).2 = some gj ∧ ctx.o.intersects gi gj = some true := by
          have := passScan_touch ctx (List.range ctx.frags.length) cs false i
            (by rw [show passScan ctx (List.range ctx.frags.length) cs false = (cs', changed) from hp]; exact hmem) hni
          rw [show passScan ctx (List.range ctx.frags.length) cs false = (cs', changed) from hp] at this
          exact this
        obtain ⟨gi, hgi, j, hj, hne, gj, hgj, hint⟩ := htw
        cases changed with
        | true => exact ⟨gi, hgi, j, expandLoop_mem_mono ctx fuel cs' j hj, hne, gj, hgj, hint⟩
        | false => exact ⟨gi, hgi, j, hj, hne, gj, hgj, hint⟩
      · cases changed with
        | true => exact ih _ h hmem
        | false => exact absurd h hmem

theorem cluster_length_le (l : List Nat) (n : Nat) (hnd : l.Nodup) (hb : ∀ j ∈ l, j < n) :
    l.length ≤ n := by
  have h1 : l.toFinset.card = l.length := List.toFinset_card_of_nodup hnd
  have h2 : l.toFinset ⊆ Finset.range n := by
    intro x hx
    rw [List.mem_toFinset] at hx
    rw [Finset.mem_range]
    exact hb x hx
  have := Finset.card_le_card h2
  rw [h1, Finset.card_range] at this
  exact this

theorem expandLoop_bounds (ctx : MergeCtx) (fuel : Nat) (cs : ClusterState)
    (hb : ∀ j ∈ cs.cluster, j < ctx.frags.length) :
    ∀ j ∈ (expandLoop ctx fuel cs).cluster, j < ctx.frags.length := by
  induction fuel generalizing cs with
  | zero => simpa [expandLoop] using hb
  | succ fuel ih =>
    unfold expandLoop
    cases hp : expandPass ctx cs with
    | mk cs' changed =>
      have hb' : ∀ j ∈ cs'.cluster, j < ctx.frags.length := by
        intro j hj
        have := passScan_mem_of ctx (List.range ctx.frags.length) cs false j
          (by rw [show passScan ctx (List.range ctx.frags.length) cs false = (cs', changed) from hp]; exact hj)
        rcases this with hm | hm
        · exact hb j hm
        · exact List.mem_range.mp hm
      cases changed with
      | true => exact ih _ hb'
      | false => exact hb'

theorem expandLoop_nodup (ctx : MergeCtx) (fuel : Nat) (cs : ClusterState)
    (hnd : cs.cluster.Nodup) : (expandLoop ctx fuel cs).cluster.Nodup := by
  induction fuel generalizing cs with
  | zero => simpa [expandLoop] using hnd
  | succ fuel ih =>
    unfold expandLoop
    cases hp : expandPass ctx cs with
    | mk cs' changed =>
      have hnd' : cs'.cluster.Nodup := by
        have := passScan_nodup ctx (List.range ctx.frags.length) cs false hnd
        rw [show passScan ctx (List.range ctx.frags.length) cs false = (cs', changed) from hp] at this
        exact this
      cases changed with
      | true => exact ih _ hnd'
      | false => exact hnd'

theorem expandLoop_fixed_aux (ctx : MergeCtx) (fuel : Nat) (cs : ClusterState)
    (hnd : cs.cluster.Nodup) (hb : ∀ j ∈ cs.cluster, j < ctx.frags.length)
    (hfuel : ctx.frags.length + 1 - cs.cluster.length ≤ fuel) :
    expandPass ctx (expandLoop ctx fuel cs) = (expandLoop ctx fuel cs, false) := by
  induction fuel generalizing cs with
  | zero =>
    have hlen := cluster_length_le cs.cluster ctx.frags.length hnd hb
    omega
  | succ fuel ih =>
    unfold expandLoop
    cases hp : expandPass ctx cs with
    | mk cs' changed =>
      cases changed with
      | true =>
        have hgrow : cs.cluster.length < cs'.cluster.length := by
          have := passScan_changed_growth ctx (List.range ctx.frags.length) cs
            (by rw [show passScan ctx (List.range ctx.frags.length) cs false = (cs', true) from hp])
          rw [show passScan ctx (List.range ctx.frags.length) cs false = (cs', true) from hp] at this
          exact this
        have hnd' : cs'.cluster.Nodup := by
          have := passScan_nodup ctx (List.range ctx.frags.length) cs false hnd
          rw [show passScan ctx (List.range ctx.frags.length) cs false = (cs', true) from hp] at this
          exact this
        have hb' : ∀ j ∈ cs'.cluster, j < ctx.frags.length := by
          intro j hj
          have := passScan_mem_of ctx (List.range ctx.frags.length) cs false j
            (by rw [show passScan ctx (List.range ctx.frags.length) cs false = (cs', true) from hp]; exact hj)
          rcases this with hm | hm
          · exact hb j hm
          · exact List.mem_range.mp hm
        exact ih cs' hnd' hb' (by omega)
      | false =>
        have heq : cs' = cs := by
          have := passScan_changed_false ctx (List.range ctx.frags.length) cs false
            (by rw [show passScan ctx (List.range ctx.frags.length) cs false = (cs', false) from hp])
          rw [show passScan ctx (List.range ctx.frags.length) cs false = (cs', false) from hp] at this
          exact this.1
        rw [heq]
        rw [heq] at hp
        exact hp

/-! ## Seed-selection lemmas -/

theorem updateA_none_eq (best : Option (Nat × ℚ)) (i : Nat) : updateA best i none = best := by
  cases best with
  | none => rfl
  | some jb => rfl

theorem updateA_some_isSome (best : Option (Nat × ℚ)) (i : Nat) (a : ℚ) :
    (updateA best i (some a)).isSome = true := by
  cases best with
  | none => rfl
  | some jb =>
    cases jb with
    | mk j b =>
      simp only [updateA]
      split
      · rfl
      · rfl

theorem updateA_some_bound (best : Option (Nat × ℚ)) (i : Nat) (a : ℚ) :
    ∃ j' b', updateA best i (some a) = some (j', b') ∧ b' ≤ a ∧
      ∀ j b, best = some (j, b) → b' ≤ b := by
  cases best with
  | none => exact ⟨i, a, rfl, le_refl a, fun j b hb => Option.noConfusion hb⟩
  | some jb =>
    cases jb with
    | mk j b =>
      simp only [updateA]
      by_cases hab : a < b
      · rw [if_pos hab]
        refine ⟨i, a, rfl, le_refl a, fun j' b' hb => ?_⟩
        injection hb with h1
        injection h1 with h2 h3
        rw [← h3]
        exact le_of_lt hab
      · rw [if_neg hab]
        refine ⟨j, b, rfl, le_of_not_lt hab, fun j' b' hb => ?_⟩
        injection hb with h1
        injection h1 with h2 h3
        rw [← h3]

theorem seedScanA_isSome (o : Turf) (pt : Coord) (l : List (Nat × Frag))
    (best : Option (Nat × ℚ))
    (h : best.isSome = true ∨ ∃ p ∈ l, (candA o pt p.2).isSome = true) :
    (seedScanA o pt l best).isSome = true := by
  induction l generalizing best with
  | nil =>
    rcases h with h | ⟨p, hp, _⟩
    · simpa [seedScanA] using h
    · exact absurd hp (List.not_mem_nil p)
  | cons p rest ih =>
    cases p with
    | mk k fr =>
      unfold seedScanA
      rcases h with h | ⟨q, hq, hc⟩
      · refine ih _ (Or.inl ?_)
        cases hc : candA o pt fr with
        | none => simpa [updateA_none_eq] using h
        | some a => exact updateA_some_isSome best k a
      · rcases List.mem_cons.mp hq with hq' | hq'
        · refine ih _ (Or.inl ?_)
          rw [hq'] at hc
          simp only at hc
          cases hcand : candA o pt fr with
          | none => rw [hcand] at hc; exact absurd hc (by simp)
          | some a => exact updateA_some_isSome best k a
        · exact ih _ (Or.inr ⟨q, hq', hc⟩)

theorem seedScanA_mem (o : Turf) (pt : Coord) (l : List (Nat × Frag)) (best : Option (Nat × ℚ))
    (i : Nat) (a : ℚ) (h : seedScanA o pt l best = some (i, a)) :
    best = some (i, a) ∨ ∃ fr, (i, fr) ∈ l ∧ candA o pt fr = some a := by
  induction l generalizing best with
  | nil => exact Or.inl (by simpa [seedScanA] using h)
  | cons p rest ih =>
    cases p with
    | mk k fr =>
      unfold seedScanA at h
      rcases ih _ h with hup | ⟨fr', hmem, hc⟩
      · cases hc : candA o pt fr with
        | none =>
          rw [hc, updateA_none_eq] at hup
          exact Or.inl hup
        | some a' =>
          rw [hc] at hup
          cases best with
          | none =>
            simp only [updateA] at hup
            injection hup with h1
            injection h1 with h2 h3
            refine Or.inr ⟨fr, ?_, ?_⟩
            · rw [← h2]; exact List.mem_cons_self _ _
            · rw [hc, h3]
          | some jb =>
            cases jb with
            | mk j b =>
              simp only [updateA] at hup
              split at hup
              · injection hup with h1
                injection h1 with h2 h3
                refine Or.inr ⟨fr, ?_, ?_⟩
                · rw [← h2]; exact List.mem_cons_self _ _
                · rw [hc, h3]
              · exact Or.inl hup
      · exact Or.inr ⟨fr', List.mem_cons_of_mem _ hmem, hc⟩

theorem seedScanA_le_best (o : Turf) (pt : Coord) (l : List (Nat × Frag))
    (best : Option (Nat × ℚ)) (i : Nat) (a : ℚ) (j : Nat) (b : ℚ)
    (h : seedScanA o pt l best = some (i, a)) (hb : best = some (j, b)) : a ≤ b := by
  induction l generalizing best j b with
  | nil =>
    rw [hb] at h
    simp only [seedScanA] at h
    injection h with h1
    injection h1 with h2 h3
    rw [← h3]
  | cons p rest ih =>
    cases p with
    | mk k fr =>
      unfold seedScanA at h
      cases hc : candA o pt fr with
      | none =>
        rw [hc, updateA_none_eq] at h
        exact ih _ _ _ h hb
      | some a' =>
        rw [hc] at h
        obtain ⟨j', b', hup, hba, hmono⟩ := updateA_some_bound best k a'
        rw [hup] at h
        exact le_trans (ih _ _ _ h rfl) (hmono j b hb)

theorem seedScanA_min (o : Turf) (pt : Coord) (l : List (Nat × Frag)) (best : Option (Nat × ℚ))
    (i : Nat) (a : ℚ) (h : seedScanA o pt l best = some (i, a)) :
    ∀ p ∈ l, ∀ b, candA o pt p.2 = some b → a ≤ b := by
  induction l generalizing best with
  | nil => intro p hp; exact absurd hp (List.not_mem_nil p)
  | cons p rest ih =>
    cases p with
    | mk k fr =>
      unfold seedScanA at h
      intro q hq b hqb
      rcases List.mem_cons.mp hq with hq' | hq'
      · rw [hq'] at hqb
        simp only at hqb
        rw [hqb] at h
        obtain ⟨j', b', hup, hba, _⟩ := updateA_some_bound best k b
        rw [hup] at h
        exact le_trans (seedScanA_le_best o pt rest _ i a j' b' h rfl) hba
      · cases hc : candA o pt fr with
        | none =>
          rw [hc, updateA_none_eq] at h
          exact ih _ h q hq' b hqb
        | some a' =>
          rw [hc] at h
          exact ih _ h q hq' b hqb

theorem seedScanA_none (o : Turf) (pt : Coord) (l : List (Nat × Frag))
    (h : ∀ p ∈ l, candA o pt p.2 = none) : seedScanA o pt l none = none := by
  induction l with
  | nil => rfl
  | cons p rest ih =>
    cases p with
    | mk k fr =>
      unfold seedScanA
      rw [h (k, fr) (List.mem_cons_self _ _), updateA_none_eq]
      exact ih (fun q hq => h q (List.mem_cons_of_mem _ hq))

theorem seedPhaseB_none (o : Turf) (pt : Coord) (l : List Frag) (k : Nat)
    (h : ∀ fr ∈ l, hitB pt fr = false) : seedPhaseB o pt k l = .ok none := by
  induction l generalizing k with
  | nil => rfl
  | cons fr rest ih =>
    unfold seedPhaseB
    rw [h fr (List.mem_cons_self _ _)]
    simp only [Bool.false_eq_true, if_false]
    exact ih _ (fun q hq => h q (List.mem_cons_of_mem _ hq))

theorem seedPhaseB_found (o : Turf) (pt : Coord) (l₁ : List Frag) (fr : Frag) (l₂ : List Frag)
    (k : Nat)
    (h1 : ∀ fr' ∈ l₁, hitB pt fr' = false) (h2 : hitB pt fr = true)
    (h3 : ∀ g, fr.2 = some g → (o.area g).isSome = true) :
    ∃ sa, seedPhaseB o pt k (l₁ ++ fr :: l₂) = .ok (some (k + l₁.length, sa)) := by
  induction l₁ generalizing k with
  | nil =>
    simp only [List.nil_append, List.length_nil, Nat.add_zero]
    unfold seedPhaseB
    rw [if_pos h2]
    cases hf : fr.2 with
    | none => exact ⟨.fin 0, by simp only [hf]⟩
    | some g =>
      obtain ⟨a, ha⟩ := Option.isSome_iff_exists.mp (h3 g hf)
      exact ⟨.fin a, by simp only [hf, ha]⟩
  | cons x xs ih =>
    rw [List.cons_append]
    unfold seedPhaseB
    rw [h1 x (List.mem_cons_self _ _)]
    simp only [Bool.false_eq_true, if_false]
    obtain ⟨sa, hsa⟩ := ih (k + 1) (fun q hq => h1 q (List.mem_cons_of_mem _ hq))
    refine ⟨sa, ?_⟩
    rw [hsa]
    have hlen : k + 1 + xs.length = k + (x :: xs).length := by
      simp only [List.length_cons]
      omega
    rw [hlen]

theorem seedScanC_none (o : Turf) (pt : Coord) (l : List (Nat × Frag)) (acc : SeedCAcc)
    (h : ∀ p ∈ l, candC o pt p.2 = none) : seedScanC o pt l acc = acc := by
  induction l generalizing acc with
  | nil => rfl
  | cons p rest ih =>
    cases p with
    | mk k fr =>
      unfold seedScanC
      have hcn : candC o pt fr = none := h (k, fr) (List.mem_cons_self _ _)
      have hup : updateC o pt acc k fr = acc := by
        unfold updateC
        cases hf : fr.2 with
        | none => rfl
        | some g => simp only [hcn]
      rw [hup]
      exact ih _ (fun q hq => h q (List.mem_cons_of_mem _ hq))

theorem candC_some_frag (o : Turf) (pt : Coord) (fr : Frag) (d : ℚ)
    (h : candC o pt fr = some d) : ∃ g, fr.2 = some g := by
  unfold candC at h
  cases hf : fr.2 with
  | none => rw [hf] at h; exact Option.noConfusion h
  | some g => exact ⟨g, rfl⟩

theorem jsLtOpt_false (d : ℚ) (md : Option ℚ)
    (h : jsLtOpt d md = false) : ∃ m, md = some m ∧ ¬ d < m := by
  cases md with
  | none => exact absurd h (by simp [jsLtOpt])
  | some m =>
    refine ⟨m, rfl, ?_⟩
    simpa [jsLtOpt] using h

theorem jsLtOpt_true (d : ℚ) (md : Option ℚ)
    (h : jsLtOpt d md = true) : ∀ m, md = some m → d < m := by
  intro m hm
  rw [hm] at h
  simpa [jsLtOpt] using h

theorem updateC_no_frag (o : Turf) (pt : Coord) (acc : SeedCAcc) (k : Nat) (fr : Frag)
    (h : fr.2 = none) : updateC o pt acc k fr = acc := by
  simp only [updateC, h]

theorem updateC_no_cand (o : Turf) (pt : Coord) (acc : SeedCAcc) (k : Nat) (fr : Frag)
    (h : candC o pt fr = none) : updateC o pt acc k fr = acc := by
  cases hf : fr.2 with
  | none => exact updateC_no_frag o pt acc k fr hf
  | some g => simp only [updateC, hf, h]

theorem updateC_cand (o : Turf) (pt : Coord) (acc : SeedCAcc) (k : Nat) (fr : Frag) (d : ℚ)
    (hc : candC o pt fr = some d) :
    (∃ m, acc.minDist = some m ∧ ¬ d < m ∧ updateC o pt acc k fr = acc) ∨
    (∃ sa, updateC o pt acc k fr = ⟨some (k, sa), some d⟩ ∧
      ∀ m, acc.minDist = some m → d < m) := by
  obtain ⟨g, hg⟩ := candC_some_frag o pt fr d hc
  cases hjs : jsLtOpt d acc.minDist with
  | false =>
    obtain ⟨m, hm, hnl⟩ := jsLtOpt_false d acc.minDist hjs
    refine Or.inl ⟨m, hm, hnl, ?_⟩
    simp only [updateC, hg, hc, hjs, Bool.false_eq_true, if_false]
  | true =>
    cases ha : o.area g with
    | some a =>
      refine Or.inr ⟨.fin a, ?_, jsLtOpt_true d acc.minDist hjs⟩
      simp only [updateC, hg, hc, hjs, ha, if_true]
    | none =>
      refine Or.inr ⟨(acc.best.map Prod.snd).getD .inf, ?_, jsLtOpt_true d acc.minDist hjs⟩
      simp only [updateC, hg, hc, hjs, ha, if_true]

theorem updateC_cases (o : Turf) (pt : Coord) (acc : SeedCAcc) (k : Nat) (fr : Frag) :
    updateC o pt acc k fr = acc ∨
      ∃ d sa, candC o pt fr = some d ∧ updateC o pt acc k fr = ⟨some (k, sa), some d⟩ ∧
        ∀ m, acc.minDist = some m → d < m := by
  cases hc : candC o pt fr with
  | none => exact Or.inl (updateC_no_cand o pt acc k fr hc)
  | some d =>
    rcases updateC_cand o pt acc k fr d hc with ⟨m, hm, hnl, heq⟩ | ⟨sa, heq, hlt⟩
    · exact Or.inl heq
    · exact Or.inr ⟨d, sa, rfl, heq, hlt⟩

theorem seedScanC_link (o : Turf) (pt : Coord) (P : Nat → ℚ → Prop) (l : List (Nat × Frag))
    (acc : SeedCAcc)
    (hl : ∀ p ∈ l, ∀ d, candC o pt p.2 = some d → P p.1 d)
    (hacc : ∀ i sa, acc.best = some (i, sa) → ∃ d, acc.minDist = some d ∧ P i d) :
    ∀ i sa, (seedScanC o pt l acc).best = some (i, sa) →
      ∃ d, (seedScanC o pt l acc).minDist = some d ∧ P i d := by
  induction l generalizing acc with
  | nil => simpa [seedScanC] using hacc
  | cons p rest ih =>
    cases p with
    | mk k fr =>
      unfold seedScanC
      rcases updateC_cases o pt acc k fr with hup | ⟨d, sa2, hc, hup, _⟩
      · rw [hup]
        exact ih _ (fun q hq => hl q (List.mem_cons_of_mem _ hq)) hacc
      · rw [hup]
        refine ih _ (fun q hq => hl q (List.mem_cons_of_mem _ hq)) ?_
        intro i sa h
        injection h with h1
        injection h1 with h2 h3
        refine ⟨d, rfl, ?_⟩
        rw [← h2]
        exact hl (k, fr) (List.mem_cons_self _ _) d hc

theorem seedScanC_minDist_le (o : Turf) (pt : Coord) (l : List (Nat × Frag)) (acc : SeedCAcc)
    (d : ℚ) (h : (seedScanC o pt l acc).minDist = some d)
    (m : ℚ) (hm : acc.minDist = some m) : d ≤ m := by
  induction l generalizing acc m with
  | nil =>
    simp only [seedScanC] at h
    rw [hm] at h
    injection h with h1
    rw [h1]
  | cons p rest ih =>
    cases p with
    | mk k fr =>
      unfold seedScanC at h
      rcases updateC_cases o pt acc k fr with hup | ⟨dh, sa2, hc, hup, hlt⟩
      · rw [hup] at h
        exact ih _ h m hm
      · rw [hup] at h
        exact le_trans (ih _ h dh rfl) (le_of_lt (hlt m hm))

theorem seedScanC_min (o : Turf) (pt : Coord) (l : List (Nat × Frag)) (acc : SeedCAcc)
    (d : ℚ) (h : (seedScanC o pt l acc).minDist = some d) :
    ∀ p ∈ l, ∀ b, candC o pt p.2 = some b → d ≤ b := by
  induction l generalizing acc with
  | nil => intro p hp; exact absurd hp (List.not_mem_nil p)
  | cons p rest ih =>
    cases p with
    | mk k fr =>
      unfold seedScanC at h
      intro q hq b hqb
      rcases List.mem_cons.mp hq with hq2 | hq2
      · have hcb : candC o pt fr = some b := by
          rw [hq2] at hqb
          exact hqb
        rcases updateC_cand o pt acc k fr b hcb with ⟨m, hm, hnl, hup⟩ | ⟨sa, hup, _⟩
        · rw [hup] at h
          exact le_trans (seedScanC_minDist_le o pt rest acc d h m hm) (le_of_not_lt hnl)
        · rw [hup] at h
          exact seedScanC_minDist_le o pt rest _ d h b rfl
      · rcases updateC_cases o pt acc k fr with hup | ⟨dh, sa2, hc, hup, _⟩
        · rw [hup] at h
          exact ih _ h q hq2 b hqb
        · rw [hup] at h
          exact ih _ h q hq2 b hqb

theorem seedScanC_best_mono (o : Turf) (pt : Coord) (l : List (Nat × Frag)) (acc : SeedCAcc)
    (h : acc.best.isSome = true) : (seedScanC o pt l acc).best.isSome = true := by
  induction l generalizing acc with
  | nil => simpa [seedScanC] using h
  | cons p rest ih =>
    cases p with
    | mk k fr =>
      unfold seedScanC
      rcases updateC_cases o pt acc k fr with hup | ⟨dh, sa2, hc, hup, _⟩
      · rw [hup]
        exact ih _ h
      · rw [hup]
        exact ih _ rfl

theorem updateC_wf (o : Turf) (pt : Coord) (acc : SeedCAcc) (k : Nat) (fr : Frag)
    (hwf : ∀ m, acc.minDist = some m → acc.best.isSome = true) :
    ∀ m, (updateC o pt acc k fr).minDist = some m →
      (updateC o pt acc k fr).best.isSome = true := by
  rcases updateC_cases o pt acc k fr with hup | ⟨dh, sa2, hc, hup, _⟩
  · rw [hup]
    exact hwf
  · rw [hup]
    intro m _
    rfl

theorem seedScanC_isSome (o : Turf) (pt : Coord) (l : List (Nat × Frag)) (acc : SeedCAcc)
    (hwf : ∀ m, acc.minDist = some m → acc.best.isSome = true)
    (h : acc.best.isSome = true ∨ ∃ p ∈ l, (candC o pt p.2).isSome = true) :
    (seedScanC o pt l acc).best.isSome = true := by
  induction l generalizing acc with
  | nil =>
    rcases h with h | ⟨p, hp, _⟩
    · simpa [seedScanC] using h
    · exact absurd hp (List.not_mem_nil p)
  | cons p rest ih =>
    cases p with
    | mk k fr =>
      unfold seedScanC
      rcases h with h | ⟨q, hq, hcq⟩
      · refine ih _ (updateC_wf o pt acc k fr hwf) (Or.inl ?_)
        rcases updateC_cases o pt acc k fr with hup | ⟨dh, sa2, hc, hup, _⟩
        · rw [hup]; exact h
        · rw [hup]; rfl
      · rcases List.mem_cons.mp hq with hq2 | hq2
        · obtain ⟨b, hcb⟩ := Option.isSome_iff_exists.mp (by rw [hq2] at hcq; exact hcq)
          rcases updateC_cand o pt acc k fr b hcb with ⟨m, hm, hnl, hup⟩ | ⟨sa, hup, _⟩
          · refine ih _ (updateC_wf o pt acc k fr hwf) (Or.inl ?_)
            rw [hup]
            exact hwf m hm
          · refine ih _ (updateC_wf o pt acc k fr hwf) (Or.inl ?_)
            rw [hup]
            rfl
        · exact ih _ (updateC_wf o pt acc k fr hwf) (Or.inr ⟨q, hq2, hcq⟩)

/-! ## Claim theorems -/

/-- Claim C1 (code bug evidence): an input flattening to two fragments
(so at least one), whose cluster admits both, and whose pairwise
`turf.union` fails entirely (returns `null`), makes
`pickOrMergeSourceFeatures` return a feature whose geometry is a
`MultiPolygon` — refuting the always-Polygon output contract stated by
the spec and by the function's own header comment. -/
theorem c1_union_failure_returns_multipolygon :
    1 ≤ (extractPolygonCoords oracle1 feats1).length ∧
    pickOrMergeSourceFeatures oracle1 feats1 ptA noOptions =
      .ok (some ⟨0, none, some (.multiPolygon [sqA, sqB])⟩) :=
  ⟨by with_unfolding_all decide, by with_unfolding_all rfl⟩

/-- Claim C2 counterexample: candidate fragment 1 (`sqB`) has a failed
centroid computation (the precomputed centroid list is `[some _, none]`),
yet the guarded expansion admits it (final cluster `[0, 1]`) and the
merged output covers it: a centroid failure skips the distance guard
instead of failing it. -/
theorem c2_centroid_failure_is_admitted :
    fragCentroids oracle2 frags2 = [some (0, 0), none] ∧
    (expandLoop ctx2 2 ⟨[0], 1⟩).cluster = [0, 1] ∧
    pickOrMergeSourceFeatures oracle2 feats2 ptA noOptions =
      .ok (some ⟨0, none, some (.polygon sqAB)⟩) :=
  ⟨by with_unfolding_all rfl, by with_unfolding_all rfl, by with_unfolding_all rfl⟩

/-- Claim C2 (amended): a candidate fragment whose centroid is
successfully computed and lies farther than `maxDistanceKm` from the seed
centroid is never admitted to the cluster by the guarded expansion, even
if it is geometrically adjacent; a candidate whose centroid computation
fails skips the distance guard instead. -/
theorem c2_far_centroid_never_admitted (ctx : MergeCtx) (fuel : Nat) (cs : ClusterState)
    (i : Nat) (c : Coord) (d : ℚ)
    (hc : ctx.centroids.getD i none = some c)
    (hd : ctx.o.dist ctx.seedCentroid c = some d)
    (hfar : ctx.maxDistanceKm < d)
    (hmem : i ∉ cs.cluster) :
    i ∉ (expandLoop ctx fuel cs).cluster :=
  expandLoop_avoid ctx fuel cs i (fun cs' => admitDecision_far ctx cs' i c d hc hd hfar) hmem

/-- Witness for the amended C2 theorem at a concrete run: fragment 1 of
`ctxW2` has its centroid 1 km away and stays outside the cluster. -/
theorem c2_far_centroid_witness :
    1 ∉ (expandLoop ctxW2 2 ⟨[0], 1⟩).cluster :=
  c2_far_centroid_never_admitted ctxW2 2 ⟨[0], 1⟩ 1 (10, 10) 1
    (by with_unfolding_all rfl) (by with_unfolding_all rfl)
    (by with_unfolding_all decide) (by with_unfolding_all decide)

/-- Claim C3 counterexample: the rigorous containment seed `sqA` has area
0, so the area cap `seedArea × areaMultiplier` is 0 and the guard
`maxClusterArea > 0 && …` is disabled: fragment 1 of area 5 is admitted
and the running total 5 exceeds the cap 0.  The last conjunct shows the
merged output of the full run covers the admitted fragment. -/
theorem c3_zero_cap_exceeded :
    seedSelect oracle3 ptA frags3 = .ok (some (0, .fin 0)) ∧
    ctx3.maxClusterArea = .fin 0 ∧
    expandLoop ctx3 2 ⟨[0], 0⟩ = ⟨[0, 1], 5⟩ ∧
    ¬ ((expandLoop ctx3 2 ⟨[0], 0⟩).clusterArea ≤ 0) ∧
    pickOrMergeSourceFeatures oracle3 feats3 ptA noOptions =
      .ok (some ⟨0, none, some (.polygon sqAB)⟩) :=
  ⟨by with_unfolding_all rfl, by with_unfolding_all rfl, by with_unfolding_all rfl,
    by with_unfolding_all decide, by with_unfolding_all rfl⟩

/-- Claim C3 (amended): whenever the cap `seedArea × areaMultiplier` is
positive and the cluster starts within it, admission keeps the running
total within the cap, so the final running total never exceeds it; a
non-positive cap disables the area guard instead. -/
theorem c3_area_cap_never_exceeded (ctx : MergeCtx) (fuel : Nat) (cs : ClusterState)
    (seedArea areaMultiplier : ℚ)
    (hM : ctx.maxClusterArea = jMul (.fin seedArea) areaMultiplier)
    (hpos : 0 < seedArea * areaMultiplier)
    (hinit : cs.clusterArea ≤ seedArea * areaMultiplier) :
    (expandLoop ctx fuel cs).clusterArea ≤ seedArea * areaMultiplier :=
  expandLoop_area_le ctx fuel cs _ (by rw [hM]; rfl) hpos hinit

/-- Witness for the amended C3 theorem at a concrete run: the `ctx2`
cluster (seed area 1, default multiplier 3) stays within the cap. -/
theorem c3_area_cap_witness :
    (expandLoop ctx2 2 ⟨[0], 1⟩).clusterArea ≤ 1 * AREA_MULTIPLIER :=
  c3_area_cap_never_exceeded ctx2 2 ⟨[0], 1⟩ 1 AREA_MULTIPLIER rfl
    (by with_unfolding_all decide) (by with_unfolding_all decide)

/-- Claim C8: the guarded expansion runs to a fixed point (one more full
pass over the final cluster admits nothing); every admitted fragment
geometrically intersects at least one cluster member other than itself
(connectivity against the whole cluster, not only the seed); and in the
concrete `ctx8` run the fragment `sqC` (index 1, scanned before the
intermediate `sqB`) is rejected in the first pass — cluster `[0, 2]` —
and admitted in the second once `sqB` has joined, final cluster
`[0, 2, 1]`. -/
theorem c8_fixed_point_and_multihop :
    (∀ ctx fuel cs, cs.cluster.Nodup → (∀ j ∈ cs.cluster, j < ctx.frags.length) →
      ctx.frags.length + 1 - cs.cluster.length ≤ fuel →
      expandPass ctx (expandLoop ctx fuel cs) = (expandLoop ctx fuel cs, false)) ∧
    (∀ ctx fuel cs i, i ∈ (expandLoop ctx fuel cs).cluster → i ∉ cs.cluster →
      ∃ gi, (ctx.frags.getD i dfltFrag).2 = some gi ∧
        ∃ j, j ∈ (expandLoop ctx fuel cs).cluster ∧ j ≠ i ∧
          ∃ gj, (ctx.frags.getD j dfltFrag).2 = some gj ∧
            ctx.o.intersects gi gj = some true) ∧
    ((expandPass ctx8 ⟨[0], 1⟩).1.cluster = [0, 2] ∧
      expandLoop ctx8 3 ⟨[0], 1⟩ = ⟨[0, 2, 1], 3⟩) :=
  ⟨expandLoop_fixed_aux, expandLoop_touch,
    by with_unfolding_all rfl, by with_unfolding_all rfl⟩

/-- Witness for C8 at the concrete `ctx8` run: the final cluster of the
three-fragment multi-hop scenario is a fixed point. -/
theorem c8_witness :
    expandPass ctx8 (expandLoop ctx8 3 ⟨[0], 1⟩) = (expandLoop ctx8 3 ⟨[0], 1⟩, false) :=
  c8_fixed_point_and_multihop.1 ctx8 3 ⟨[0], 1⟩
    (by with_unfolding_all decide) (by with_unfolding_all decide) (by with_unfolding_all decide)

/-- Claim C7: validation accepts a candidate geometry exactly when the
click point is contained in it directly, or (on a definite negative
direct test) contained in its 10 m buffer; a thrown direct containment
check, a thrown or null buffer, and a missing geometry all report
`false`. -/
theorem c7_validation_iff (o : Turf) (pt : Coord) (g : Geometry) :
    isPointInsideResult o pt none = false ∧
    (o.pip pt g = none → isPointInsideResult o pt (some g) = false) ∧
    (isPointInsideResult o pt (some g) = true ↔
      (o.pip pt g = some true ∨
        (o.pip pt g = some false ∧ ∃ b, o.buffer g POINT_BUFFER_M = some (some b) ∧
          o.pip pt b = some true))) := by
  refine ⟨rfl, ?_, ?_, ?_⟩
  · intro h
    simp [isPointInsideResult, h]
  · intro h
    simp only [isPointInsideResult] at h
    split at h
    · exact absurd h (by simp)
    · rename_i hp
      exact Or.inl hp
    · rename_i hp
      split at h
      · exact absurd h (by simp)
      · exact absurd h (by simp)
      · rename_i buffered hb
        split at h
        · exact absurd h (by simp)
        · rename_i b hpb
          rw [h] at hpb
          exact Or.inr ⟨hp, buffered, hb, hpb⟩
  · rintro (hp | ⟨hp, b, hb, hpb⟩)
    · simp [isPointInsideResult, hp]
    · simp [isPointInsideResult, hp, hb, hpb]

/-- Witness for C7 at a concrete acceptance: the click point is directly
inside the candidate, so validation accepts. -/
theorem c7_witness : isPointInsideResult oracle1 ptA (some (.polygon sqA)) = true :=
  (c7_validation_iff oracle1 ptA (.polygon sqA)).2.2.mpr (Or.inl (by with_unfolding_all rfl))

/-- Claim C9: flattening always runs first; a zero-fragment flattening
returns the first raw feature unchanged, and a one-fragment flattening
returns that fragment immediately, wrapped as a single Polygon on the
first feature, with no clustering. -/
theorem c9_flatten_degenerate_and_single (o : Turf) (f0 : Feature) (fs : List Feature)
    (pt : Coord) (opts : MergeOptions) :
    (extractPolygonCoords o (f0 :: fs) = [] →
      pickOrMergeSourceFeatures o (f0 :: fs) pt opts = .ok (some f0)) ∧
    (∀ c p, extractPolygonCoords o (f0 :: fs) = [(c, p)] →
      pickOrMergeSourceFeatures o (f0 :: fs) pt opts =
        .ok (some { f0 with geometry := some (.polygon c) })) := by
  constructor
  · intro h
    simp [pickOrMergeSourceFeatures, h]
  · intro c p h
    simp [pickOrMergeSourceFeatures, h]

/-- Witness for C9: the degenerate zero-fragment input returns its first
feature unchanged, and a single-fragment input returns the wrapped
Polygon. -/
theorem c9_witness :
    pickOrMergeSourceFeatures oracle1 featsNone ptA noOptions = .ok (some ⟨3, none, none⟩) ∧
    pickOrMergeSourceFeatures oracle1 featsOne ptA noOptions =
      .ok (some ⟨2, some 5, some (.polygon sqA)⟩) :=
  ⟨(c9_flatten_degenerate_and_single oracle1 ⟨3, none, none⟩ [] ptA noOptions).1 rfl,
    (c9_flatten_degenerate_and_single oracle1 ⟨2, some 5, some (.polygon sqA)⟩ [] ptA noOptions).2
      sqA (some (.polygon sqA)) rfl⟩

/-- Claim C10: every non-null merge result is the first input feature
with only its geometry replaced — all other fields (the properties in
particular) are taken from `features[0]` by the JS spread, regardless of
which input feature the seed came from. -/
theorem c10_result_fields_from_first (o : Turf) (f0 : Feature) (fs : List Feature)
    (pt : Coord) (opts : MergeOptions) (r : Feature)
    (h : pickOrMergeSourceFeatures o (f0 :: fs) pt opts = .ok (some r)) :
    ∃ g, r = { f0 with geometry := g } := by
  simp only [pickOrMergeSourceFeatures] at h
  split at h
  · injection h with h1
    injection h1 with h2
    exact ⟨f0.geometry, h2.symm⟩
  · split at h
    · injection h with h1
      injection h1 with h2
      exact ⟨_, h2.symm⟩
    · split at h
      · exact Except.noConfusion h
      · injection h with h1
        injection h1 with h2
        exact ⟨f0.geometry, h2.symm⟩
      · simp only [mergeAfterSeed] at h
        split at h
        · exact Except.noConfusion h
        · split at h
          · exact Except.noConfusion h
          · injection h with h1
            injection h1 with h2
            exact ⟨_, h2.symm⟩

/-! ## Controller lemmas -/

theorem applyEnv_passNumber (env : Nat → Option (Feature × Geometry)) (st : PassState) :
    (applyEnv env st).passNumber = st.passNumber := by
  unfold applyEnv
  cases env st.passNumber with
  | none => rfl
  | some fg => cases fg with | mk f g => rfl

theorem passStep_inr (diagOf : Geometry → ℚ) (st st' : PassState)
    (h : passStep diagOf st = .inr st') :
    st'.passNumber = st.passNumber + 1 ∧ st.passNumber + 1 ≤ MAX_PASSES := by
  unfold passStep at h
  split at h
  · exact Sum.noConfusion h
  · split at h
    · exact Sum.noConfusion h
    · rename_i hle
      split at h
      · exact Sum.noConfusion h
      · injection h with h1
        rw [← h1]
        exact ⟨rfl, by omega⟩

theorem runPassLoop_isSome_aux (diagOf : Geometry → ℚ) (env : Nat → Option (Feature × Geometry)) :
    ∀ fuel st, MAX_PASSES + 1 ≤ fuel + st.passNumber → 1 ≤ fuel →
      (runPassLoop diagOf env fuel st).isSome = true := by
  intro fuel
  induction fuel with
  | zero => omega
  | succ fuel ih =>
    intro st h _
    unfold runPassLoop
    cases hs : passStep diagOf st with
    | inl e => simp
    | inr st' =>
      obtain ⟨hpn, hle⟩ := passStep_inr diagOf st st' hs
      have h7 : MAX_PASSES + 1 ≤ fuel + (applyEnv env st').passNumber := by
        rw [applyEnv_passNumber, hpn]
        omega
      have h1 : 1 ≤ fuel := by omega
      exact ih (applyEnv env st') h7 h1

theorem tryNextZoomLoop_skip (o : Turf) (pt : Coord)
    (env : Nat → Option (Feature × Option Geometry)) (i : Nat) (rest : List Nat)
    (best : Option (Feature × Option Geometry))
    (h : ∀ f g, env i ≠ some (f, some g)) :
    tryNextZoomLoop o pt env (i :: rest) best = tryNextZoomLoop o pt env rest best := by
  simp only [tryNextZoomLoop]
  cases henv : env i with
  | none => rfl
  | some fg =>
    cases fg with
    | mk f g =>
      cases g with
      | none => rfl
      | some geom => exact absurd henv (h f geom)

theorem tryNextZoomLoop_invalid (o : Turf) (pt : Coord)
    (env : Nat → Option (Feature × Option Geometry)) (i : Nat) (rest : List Nat)
    (best : Option (Feature × Option Geometry)) (f : Feature) (g : Geometry)
    (henv : env i = some (f, some g))
    (hval : isPointInsideResult o pt (some g) = false) :
    tryNextZoomLoop o pt env (i :: rest) best =
      tryNextZoomLoop o pt env rest (some (f, some g)) := by
  simp only [tryNextZoomLoop]
  rw [henv]
  simp [hval]

theorem tryNextZoomLoop_valid (o : Turf) (pt : Coord)
    (env : Nat → Option (Feature × Option Geometry)) (i : Nat) (rest : List Nat)
    (best : Option (Feature × Option Geometry)) (f : Feature) (g : Geometry)
    (henv : env i = some (f, some g))
    (hval : isPointInsideResult o pt (some g) = true) :
    tryNextZoomLoop o pt env (i :: rest) best = .found f (some g) := by
  simp only [tryNextZoomLoop]
  rw [henv]
  simp [hval]

theorem tryNextZoomLoop_step_any (o : Turf) (pt : Coord)
    (env : Nat → Option (Feature × Option Geometry)) (j : Nat) (rest : List Nat)
    (best : Option (Feature × Option Geometry))
    (h : ∀ f g, env j = some (f, some g) → isPointInsideResult o pt (some g) = false) :
    ∃ best', tryNextZoomLoop o pt env (j :: rest) best = tryNextZoomLoop o pt env rest best' := by
  cases henv : env j with
  | none =>
    refine ⟨best, tryNextZoomLoop_skip o pt env j rest best ?_⟩
    intro f g hg
    rw [henv] at hg
    exact Option.noConfusion hg
  | some fg =>
    cases fg with
    | mk f g =>
      cases g with
      | none =>
        refine ⟨best, tryNextZoomLoop_skip o pt env j rest best ?_⟩
        intro f' g' hg
        rw [henv] at hg
        injection hg with h1
        injection h1 with h2 h3
        exact Option.noConfusion h3
      | some geom =>
        exact ⟨some (f, some geom),
          tryNextZoomLoop_invalid o pt env j rest best f geom henv (h f geom henv)⟩

/-- Claim C5: the per-zoom expansion loop of the discovery controller
always exits within the configured `MAX_PASSES = 6` working passes (fuel
`MAX_PASSES + 1` suffices for every environment, i.e. whatever the
requeries and merges return and whatever the diagonals are — in
particular when the growth ratio never falls below the threshold); and a
`runPass` invocation exits through the converged branch exactly when the
geometry is present, the pass limit is not yet hit, at least one prior
pass happened, and the growth ratio from the previous pass's diagonal is
below `BBOX_GROWTH = 10%`. -/
theorem c5_pass_limit_and_convergence (diagOf : Geometry → ℚ) :
    (∀ env st, st.passNumber = 0 →
      (runPassLoop diagOf env (MAX_PASSES + 1) st).isSome = true) ∧
    (∀ st g, st.currentGeom = some g →
      ((∃ r, passStep diagOf st = .inl (.converged r)) ↔
        (st.passNumber + 1 ≤ MAX_PASSES ∧ 1 ≤ st.passNumber ∧
          (if 0 < st.prevDiagonal then (diagOf g - st.prevDiagonal) / st.prevDiagonal else 1)
            < BBOX_GROWTH))) := by
  constructor
  · intro env st h0
    exact runPassLoop_isSome_aux diagOf env (MAX_PASSES + 1) st (by omega) (by omega)
  · intro st g hg
    constructor
    · rintro ⟨r, hr⟩
      simp only [passStep, hg] at hr
      split at hr
      · exact absurd hr (by simp)
      · split at hr
        · rename_i hcond
          exact ⟨by omega, by omega, hcond.2⟩
        · exact Sum.noConfusion hr
    · rintro ⟨hle, hprior, hgrowth⟩
      refine ⟨passResult st, ?_⟩
      simp only [passStep, hg]
      rw [if_neg (by omega : ¬ MAX_PASSES < st.passNumber + 1)]
      rw [if_pos ⟨by omega, hgrowth⟩]

/-- Witness for C5: with an environment that never returns a merge and a
zero diagonal everywhere, the loop from the initial state exits within
the fuel bound. -/
theorem c5_witness :
    (runPassLoop (fun _ => 0) (fun _ => none) (MAX_PASSES + 1) (initPassState none none)).isSome
      = true :=
  (c5_pass_limit_and_convergence (fun _ => 0)).1 (fun _ => none) (initPassState none none) rfl

/-- Claim C6: over the four-zoom cascade, a validated candidate at the
first index whose usable candidates are all preceded only by invalid ones
is returned immediately; when every usable candidate fails validation,
the cascade returns the last usable candidate (later zooms overwrite
earlier ones as best-so-far); and when no zoom yields a usable candidate
the run fails with the hard no-building outcome — the only hard
failure. -/
theorem c6_cascade_behaviour (o : Turf) (pt : Coord)
    (env : Nat → Option (Feature × Option Geometry)) :
    (∀ i f g, i < 4 → env i = some (f, some g) →
      isPointInsideResult o pt (some g) = true →
      (∀ j, j < i → ∀ f' g', env j = some (f', some g') →
        isPointInsideResult o pt (some g') = false) →
      discoverRun o pt env = .found f (some g)) ∧
    (∀ i f g, i < 4 → env i = some (f, some g) →
      (∀ j f' g', j < 4 → env j = some (f', some g') →
        isPointInsideResult o pt (some g') = false) →
      (∀ j f' g', i < j → j < 4 → env j ≠ some (f', some g')) →
      discoverRun o pt env = .bestEffort f (some g)) ∧
    ((∀ j f' g', j < 4 → env j ≠ some (f', some g')) →
      discoverRun o pt env = .noBuilding) := by
  refine ⟨?_, ?_, ?_⟩
  · intro i f g hi henv hval hprev
    unfold discoverRun
    interval_cases i
    · exact tryNextZoomLoop_valid o pt env 0 [1, 2, 3] none f g henv hval
    · obtain ⟨b1, e1⟩ := tryNextZoomLoop_step_any o pt env 0 [1, 2, 3] none
        (fun f' g' hg => hprev 0 (by omega) f' g' hg)
      rw [e1]
      exact tryNextZoomLoop_valid o pt env 1 [2, 3] b1 f g henv hval
    · obtain ⟨b1, e1⟩ := tryNextZoomLoop_step_any o pt env 0 [1, 2, 3] none
        (fun f' g' hg => hprev 0 (by omega) f' g' hg)
      rw [e1]
      obtain ⟨b2, e2⟩ := tryNextZoomLoop_step_any o pt env 1 [2, 3] b1
        (fun f' g' hg => hprev 1 (by omega) f' g' hg)
      rw [e2]
      exact tryNextZoomLoop_valid o pt env 2 [3] b2 f g henv hval
    · obtain ⟨b1, e1⟩ := tryNextZoomLoop_step_any o pt env 0 [1, 2, 3] none
        (fun f' g' hg => hprev 0 (by omega) f' g' hg)
      rw [e1]
      obtain ⟨b2, e2⟩ := tryNextZoomLoop_step_any o pt env 1 [2, 3] b1
        (fun f' g' hg => hprev 1 (by omega) f' g' hg)
      rw [e2]
      obtain ⟨b3, e3⟩ := tryNextZoomLoop_step_any o pt env 2 [3] b2
        (fun f' g' hg => hprev 2 (by omega) f' g' hg)
      rw [e3]
      exact tryNextZoomLoop_valid o pt env 3 [] b3 f g henv hval
  · intro i f g hi henv hinv hlater
    unfold discoverRun
    interval_cases i
    · rw [tryNextZoomLoop_invalid o pt env 0 [1, 2, 3] none f g henv
        (hinv 0 f g (by omega) henv)]
      rw [tryNextZoomLoop_skip o pt env 1 [2, 3] _ (fun f' g' => hlater 1 f' g' (by omega) (by omega))]
      rw [tryNextZoomLoop_skip o pt env 2 [3] _ (fun f' g' => hlater 2 f' g' (by omega) (by omega))]
      rw [tryNextZoomLoop_skip o pt env 3 [] _ (fun f' g' => hlater 3 f' g' (by omega) (by omega))]
      rfl
    · obtain ⟨b1, e1⟩ := tryNextZoomLoop_step_any o pt env 0 [1, 2, 3] none
        (fun f' g' hg => hinv 0 f' g' (by omega) hg)
      rw [e1]
      rw [tryNextZoomLoop_invalid o pt env 1 [2, 3] b1 f g henv (hinv 1 f g (by omega) henv)]
      rw [tryNextZoomLoop_skip o pt env 2 [3] _ (fun f' g' => hlater 2 f' g' (by omega) (by omega))]
      rw [tryNextZoomLoop_skip o pt env 3 [] _ (fun f' g' => hlater 3 f' g' (by omega) (by omega))]
      rfl
    · obtain ⟨b1, e1⟩ := tryNextZoomLoop_step_any o pt env 0 [1, 2, 3] none
        (fun f' g' hg => hinv 0 f' g' (by omega) hg)
      rw [e1]
      obtain ⟨b2, e2⟩ := tryNextZoomLoop_step_any o pt env 1 [2, 3] b1
        (fun f' g' hg => hinv 1 f' g' (by omega) hg)
      rw [e2]
      rw [tryNextZoomLoop_invalid o pt env 2 [3] b2 f g henv (hinv 2 f g (by omega) henv)]
      rw [tryNextZoomLoop_skip o pt env 3 [] _ (fun f' g' => hlater 3 f' g' (by omega) (by omega))]
      rfl
    · obtain ⟨b1, e1⟩ := tryNextZoomLoop_step_any o pt env 0 [1, 2, 3] none
        (fun f' g' hg => hinv 0 f' g' (by omega) hg)
      rw [e1]
      obtain ⟨b2, e2⟩ := tryNextZoomLoop_step_any o pt env 1 [2, 3] b1
        (fun f' g' hg => hinv 1 f' g' (by omega) hg)
      rw [e2]
      obtain ⟨b3, e3⟩ := tryNextZoomLoop_step_any o pt env 2 [3] b2
        (fun f' g' hg => hinv 2 f' g' (by omega) hg)
      rw [e3]
      rw [tryNextZoomLoop_invalid o pt env 3 [] b3 f g henv (hinv 3 f g (by omega) henv)]
      rfl
  · intro h
    unfold discoverRun
    rw [tryNextZoomLoop_skip o pt env 0 [1, 2, 3] none (fun f' g' => h 0 f' g' (by omega))]
    rw [tryNextZoomLoop_skip o pt env 1 [2, 3] none (fun f' g' => h 1 f' g' (by omega))]
    rw [tryNextZoomLoop_skip o pt env 2 [3] none (fun f' g' => h 2 f' g' (by omega))]
    rw [tryNextZoomLoop_skip o pt env 3 [] none (fun f' g' => h 3 f' g' (by omega))]
    rfl

/-- Witness for C6: a cascade whose zoom index 0 yields a validated
candidate returns it immediately. -/
theorem c6_witness :
    discoverRun oracle1 ptA envW = .found ⟨5, none, none⟩ (some (.polygon sqA)) :=
  (c6_cascade_behaviour oracle1 ptA envW).1 0 ⟨5, none, none⟩ (.polygon sqA)
    (by omega) (by with_unfolding_all rfl) (by with_unfolding_all rfl)
    (fun j hj => absurd hj (Nat.not_lt_zero j))

/-- Claim C4: seed selection follows the strict precedence with first
success winning.  (a) When some fragment's rigorous point-in-polygon test
contains the reference point (with its area computed), the selected seed
is such a fragment of minimum area.  (b) When no fragment passes (a), the
first fragment whose raw outer ring contains the point by ray casting is
selected.  (c) When (b) also fails, a fragment whose centroid distance to
the reference point is minimal among all computed centroid distances is
selected.  (d) When even (c) yields nothing, `pickOrMergeSourceFeatures`
returns the first raw input feature unchanged. -/
theorem c4_seed_precedence (o : Turf) (pt : Coord) :
    (∀ frags : List Frag, ∀ i fr a, (i, fr) ∈ frags.enum → candA o pt fr = some a →
      ∃ i2 a2, seedSelect o pt frags = .ok (some (i2, .fin a2)) ∧
        (∃ fr2, (i2, fr2) ∈ frags.enum ∧ candA o pt fr2 = some a2) ∧
        ∀ p ∈ frags.enum, ∀ b, candA o pt p.2 = some b → a2 ≤ b) ∧
    (∀ l₁ fr l₂, (∀ p ∈ ((l₁ ++ fr :: l₂ : List Frag)).enum, candA o pt p.2 = none) →
      (∀ fr2 ∈ l₁, hitB pt fr2 = false) → hitB pt fr = true →
      (∀ g, fr.2 = some g → (o.area g).isSome = true) →
      ∃ sa, seedSelect o pt (l₁ ++ fr :: l₂) = .ok (some (l₁.length, sa))) ∧
    (∀ frags : List Frag,
      (∀ p ∈ frags.enum, candA o pt p.2 = none) →
      (∀ fr ∈ frags, hitB pt fr = false) →
      (∃ p ∈ frags.enum, (candC o pt p.2).isSome = true) →
      ∃ i2 sa d, seedSelect o pt frags = .ok (some (i2, sa)) ∧
        (∃ fr2, (i2, fr2) ∈ frags.enum ∧ candC o pt fr2 = some d) ∧
        ∀ p ∈ frags.enum, ∀ b, candC o pt p.2 = some b → d ≤ b) ∧
    (∀ f0 fs (opts : MergeOptions),
      2 ≤ (extractPolygonCoords o (f0 :: fs)).length →
      (∀ p ∈ (extractPolygonCoords o (f0 :: fs)).enum, candA o pt p.2 = none) →
      (∀ fr ∈ extractPolygonCoords o (f0 :: fs), hitB pt fr = false) →
      (∀ p ∈ (extractPolygonCoords o (f0 :: fs)).enum, candC o pt p.2 = none) →
      pickOrMergeSourceFeatures o (f0 :: fs) pt opts = .ok (some f0)) := by
  refine ⟨?_, ?_, ?_, ?_⟩
  · intro frags i fr a hmem hcand
    have hsome : (seedPhaseA o pt frags).isSome = true :=
      seedScanA_isSome o pt frags.enum none (Or.inr ⟨(i, fr), hmem, by rw [hcand]; rfl⟩)
    obtain ⟨p, hp⟩ := Option.isSome_iff_exists.mp hsome
    cases p with
    | mk i2 a2 =>
      refine ⟨i2, a2, ?_, ?_, ?_⟩
      · unfold seedSelect
        rw [show seedPhaseA o pt frags = some (i2, a2) from hp]
      · rcases seedScanA_mem o pt frags.enum none i2 a2 hp with habs | hm
        · exact Option.noConfusion habs
        · exact hm
      · exact seedScanA_min o pt frags.enum none i2 a2 hp
  · intro l₁ fr l₂ hA hB1 hB2 harea
    have hA0 : seedPhaseA o pt (l₁ ++ fr :: l₂) = none := seedScanA_none o pt _ hA
    obtain ⟨sa, hsb⟩ := seedPhaseB_found o pt l₁ fr l₂ 0 hB1 hB2 harea
    rw [Nat.zero_add] at hsb
    refine ⟨sa, ?_⟩
    unfold seedSelect
    rw [hA0, hsb]
  · intro frags hA hB hex
    have hA0 : seedPhaseA o pt frags = none := seedScanA_none o pt _ hA
    have hB0 : seedPhaseB o pt 0 frags = .ok none := seedPhaseB_none o pt frags 0 hB
    have hsome : (seedScanC o pt frags.enum ⟨none, none⟩).best.isSome = true :=
      seedScanC_isSome o pt frags.enum ⟨none, none⟩ (fun m hm => Option.noConfusion hm)
        (Or.inr hex)
    obtain ⟨p, hp⟩ := Option.isSome_iff_exists.mp hsome
    cases p with
    | mk i2 sa =>
      obtain ⟨d, hmind, hP⟩ := seedScanC_link o pt
        (fun i d => ∃ fr2, (i, fr2) ∈ frags.enum ∧ candC o pt fr2 = some d)
        frags.enum ⟨none, none⟩ (fun q hq d hd => ⟨q.2, hq, hd⟩)
        (fun i sa2 h => Option.noConfusion h) i2 sa hp
      refine ⟨i2, sa, d, ?_, hP, ?_⟩
      · unfold seedSelect
        rw [hA0, hB0, show seedPhaseC o pt frags = some (i2, sa) from hp]
      · exact seedScanC_min o pt frags.enum ⟨none, none⟩ d hmind
  · intro f0 fs opts hlen hA hB hC
    have hA0 : seedPhaseA o pt (extractPolygonCoords o (f0 :: fs)) = none :=
      seedScanA_none o pt _ hA
    have hB0 := seedPhaseB_none o pt (extractPolygonCoords o (f0 :: fs)) 0 hB
    have hC0 : seedPhaseC o pt (extractPolygonCoords o (f0 :: fs)) = none := by
      unfold seedPhaseC
      rw [seedScanC_none o pt _ ⟨none, none⟩ hC]
    have hsel : seedSelect o pt (extractPolygonCoords o (f0 :: fs)) = .ok none := by
      unfold seedSelect
      rw [hA0, hB0, hC0]
    simp only [pickOrMergeSourceFeatures]
    rw [if_neg (by omega : ¬ (extractPolygonCoords o (f0 :: fs)).length = 0)]
    rw [if_neg (by omega : ¬ (extractPolygonCoords o (f0 :: fs)).length = 1)]
    rw [hsel]

/-- Witness for C4 at a concrete run: the rigorous containment phase
applies and picks the minimum-area containing fragment. -/
theorem c4_witness :
    ∃ i2 a2, seedSelect oracle1 ptA frags1 = .ok (some (i2, .fin a2)) ∧
      (∃ fr2, (i2, fr2) ∈ frags1.enum ∧ candA oracle1 ptA fr2 = some a2) ∧
      ∀ p ∈ frags1.enum, ∀ b, candA oracle1 ptA p.2 = some b → a2 ≤ b :=
  (c4_seed_precedence oracle1 ptA).1 frags1 0 (sqA, some (.polygon sqA)) 1
    (by with_unfolding_all decide) (by with_unfolding_all rfl)

/-- Witness for C10 at the concrete `oracle1` run: the result carries the
first feature's non-geometry fields. -/
theorem c10_witness :
    ∃ g, (⟨0, none, some (.multiPolygon [sqA, sqB])⟩ : Feature) =
      { (⟨0, none, some (.polygon sqA)⟩ : Feature) with geometry := g } :=
  c10_result_fields_from_first oracle1 ⟨0, none, some (.polygon sqA)⟩
    [⟨1, some 7, some (.polygon sqB)⟩] ptA noOptions _ (by with_unfolding_all rfl)

end BuildingBoundary

